import Mathlib

/-!
# Wavefront OBJ parser (`demo/objparser.cpp`): embedding and verified properties

The development embeds the functions of `objparser.cpp` as executable Lean
definitions and proves properties of them.

Modelling conventions.

* A C string (`const char*`) is the list of the bytes that follow the cursor;
  reading the cursor past the end of the list yields the terminator `0`
  (see `deref`).  Bytes are natural numbers.
* `int` is a mathematical integer kept in the signed 32-bit range by
  `wrapInt32`; `unsigned int` is a natural number reduced modulo `2^32`;
  `size_t` values are sizes of objects held in memory and are kept as
  unbounded natural numbers.
* `char` holds the face vertex counts.  Its signedness is fixed by the
  platform, so it is a parameter (`charSigned`) of every function that
  narrows to `char`.
* A growable buffer (`T* data; size_t size, cap`) is the list of its `size`
  live elements together with its capacity.  `data[size++] = x` appends to the
  list; the store is inside the allocation exactly when the old size is below
  the capacity.
* Floating point arithmetic is not evaluated.  `parseFloat` returns the
  expression it computes in symbolic form (`FloatVal`): the sign, the decimal
  digits accumulated into the mantissa and the power of ten applied to it.
* `assert` failures and reads outside an array make a function return `none`.
-/

namespace ObjParser

/-! ## Machine integers and characters -/

/-- Reduction of an integer to the range of a signed 32-bit `int`. -/
def wrapInt32 (x : Int) : Int :=
  (x + 2147483648) % 4294967296 - 2147483648

/-- The conversion `char(x)` of an `int`, read back as an `int`
(`int fv = result.fv[face]`): the low eight bits, sign-extended when `char`
is signed. -/
def toChar (charSigned : Bool) (x : Int) : Int :=
  if charSigned then (x + 128) % 256 - 128 else x % 256

/-- The byte under the cursor, `*s`; the terminator `0` at the end. -/
def deref (s : List Nat) : Nat :=
  s.headD 0

/-- The byte `line[i]`; the terminator `0` at and past the end. -/
def charAt (line : List Nat) (i : Nat) : Nat :=
  line.getD i 0

/-- The test `unsigned(*s - '0') < 10`. -/
def isDigit (c : Nat) : Bool :=
  decide (48 ≤ c) && decide (c ≤ 57)

/-- The loop `while (*s == ' ' || *s == '\t') s++`. -/
def skipBlanks : List Nat → List Nat
  | [] => []
  | c :: s => if c = 32 ∨ c = 9 then skipBlanks s else c :: s

/-- The statement `s += (*s == '-' || *s == '+')`. -/
def skipSign (s : List Nat) : List Nat :=
  if deref s = 45 ∨ deref s = 43 then s.drop 1 else s

/-! ## Growable buffers -/

/-- Function `growArray`, on the capacity: 32 for an empty buffer, one and a
half times the old capacity otherwise.  The `memcpy` keeps the first
`capacity` cells, hence every live element of a buffer that is within its
capacity. -/
def growArray (capacity : Nat) : Nat :=
  if capacity = 0 then 32 else capacity + capacity / 2

/-- Function `fixupIndex`: `(index >= 0) ? index - 1 : int(size) + index`. -/
def fixupIndex (index : Int) (size : Nat) : Int :=
  if 0 ≤ index then index - 1 else wrapInt32 (wrapInt32 (size : Int) + index)

/-! ## Numeric lexers -/

/-- The digit loop of `parseInt`, with the `unsigned int` accumulator. -/
def parseIntDigits : List Nat → Nat → Nat × List Nat
  | [], result => (result, [])
  | c :: s, result =>
    if isDigit c then parseIntDigits s ((result * 10 + (c - 48)) % 4294967296)
    else (result, c :: s)

/-- Function `parseInt`: the value read and the cursor `*end`. -/
def parseInt (s : List Nat) : Int × List Nat :=
  let s1 := skipBlanks s
  let sign := decide (deref s1 = 45)
  let s2 := skipSign s1
  let r := parseIntDigits s2 0
  (if sign then wrapInt32 (-(wrapInt32 (r.1 : Int))) else wrapInt32 (r.1 : Int), r.2)

/-- Symbolic form of the value returned by `parseFloat`.  The mantissa
`result` is the `double` obtained by folding `result * 10 + digit` over
`digits`; the three constructors are the three `return` statements. -/
inductive FloatVal where
  /-- The value `float(sign * result / powers[index])`. -/
  | divTable (negative : Bool) (digits : List Nat) (index : Nat)
  /-- The value `float(sign * result * powers[index])`. -/
  | mulTable (negative : Bool) (digits : List Nat) (index : Nat)
  /-- The value `float(sign * result * pow(10.0, power))`. -/
  | mulPow (negative : Bool) (digits : List Nat) (power : Int)
  deriving DecidableEq, Repr

/-- The integer-part loop of `parseFloat`: collects the digits. -/
def floatIntPart : List Nat → List Nat → List Nat × List Nat
  | [], digits => (digits, [])
  | c :: s, digits =>
    if isDigit c then floatIntPart s (digits ++ [c - 48]) else (digits, c :: s)

/-- The fractional-part loop of `parseFloat`: collects the digits and
decrements `power` once per digit. -/
def floatFracPart : List Nat → List Nat → Int → List Nat × Int × List Nat
  | [], digits, power => (digits, power, [])
  | c :: s, digits, power =>
    if isDigit c then floatFracPart s (digits ++ [c - 48]) (wrapInt32 (power - 1))
    else (digits, power, c :: s)

/-- The exponent loop of `parseFloat`, with the `int` accumulator. -/
def floatExponent : List Nat → Int → Int × List Nat
  | [], exppower => (exppower, [])
  | c :: s, exppower =>
    if isDigit c then floatExponent s (wrapInt32 (exppower * 10 + ((c - 48 : Nat) : Int)))
    else (exppower, c :: s)

/-- Number of entries of the table `powers` of `parseFloat`. -/
def powersCount : Nat := 23

/-- Function `parseFloat`: the value read and the cursor `*end`. -/
def parseFloat (s : List Nat) : FloatVal × List Nat :=
  let s1 := skipBlanks s
  let negative := decide (deref s1 = 45)
  let s2 := skipSign s1
  let ip := floatIntPart s2 []
  let fp := if deref ip.2 = 46 then floatFracPart (ip.2.drop 1) ip.1 0 else (ip.1, 0, ip.2)
  let ep :=
    if deref fp.2.2 ||| 32 = 101 then
      let s3 := fp.2.2.drop 1
      let expsign : Int := if deref s3 = 45 then -1 else 1
      let e := floatExponent (skipSign s3) 0
      (wrapInt32 (fp.2.1 + wrapInt32 (expsign * e.1)), e.2)
    else (fp.2.1, fp.2.2)
  let power := ep.1
  let value :=
    if 0 ≤ wrapInt32 (-power) ∧ wrapInt32 (-power) < powersCount then
      FloatVal.divTable negative fp.1 (wrapInt32 (-power)).toNat
    else if 0 ≤ power ∧ power < powersCount then
      FloatVal.mulTable negative fp.1 power.toNat
    else FloatVal.mulPow negative fp.1 power
  (value, ep.2)

/-- Function `parseFace`: the cursor returned and the three reference
parameters `vi`, `vti`, `vni` after the call. -/
def parseFace (s : List Nat) (vti vni : Int) : List Nat × Int × Int × Int :=
  let s1 := skipBlanks s
  let a := parseInt s1
  if deref a.2 ≠ 47 then (a.2, a.1, vti, vni)
  else
    let s2 := a.2.drop 1
    let b := if deref s2 ≠ 47 then parseInt s2 else (vti, s2)
    if deref b.2 ≠ 47 then (b.2, a.1, b.1, vni)
    else
      let c := parseInt (b.2.drop 1)
      (c.2, a.1, b.1, c.1)

/-! ## The mesh accumulator -/

/-- Class `ObjFile`: the five buffers, each with its capacity.  The sizes
`v_size`, ..., `f_size` are the lengths of the lists. -/
structure ObjFile where
  v : List FloatVal
  v_cap : Nat
  vt : List FloatVal
  vt_cap : Nat
  vn : List FloatVal
  vn_cap : Nat
  fv : List Int
  fv_cap : Nat
  f : List Int
  f_cap : Nat
  deriving DecidableEq, Repr

/-- Constructor `ObjFile::ObjFile`: all buffers empty, no storage. -/
def ObjFile.empty : ObjFile :=
  { v := [], v_cap := 0, vt := [], vt_cap := 0, vn := [], vn_cap := 0,
    fv := [], fv_cap := 0, f := [], f_cap := 0 }

/-- The capacity after the check `if (size + n > cap) growArray(data, cap)`. -/
def ensureRoom (size n cap : Nat) : Nat :=
  if size + n > cap then growArray cap else cap

/-- The loop `while (*s)` of the face branch of `objParseLine`.  The state is
the cursor, the mesh and the counter `fv`; `v`, `vt`, `vn` are the element
counts taken before the loop.  Every iteration that does not leave the loop
moves the cursor forward, so `fuel` above the length of the line is never
used up (`faceLoop_fuel`).  The counter `fv` is an `int`; it is kept as a
natural number, since only its conversion to `char` is stored. -/
def faceLoop (v vt vn : Nat) : Nat → List Nat → ObjFile → Nat → ObjFile × Nat
  | 0, _, result, fv => (result, fv)
  | fuel + 1, s, result, fv =>
    if deref s = 0 then (result, fv)
    else
      let p := parseFace s 0 0
      if p.2.1 = 0 then (result, fv)
      else
        let result1 : ObjFile :=
          { result with
            f := result.f ++ [fixupIndex p.2.1 v, fixupIndex p.2.2.1 vt, fixupIndex p.2.2.2 vn]
            f_cap := ensureRoom result.f.length 3 result.f_cap }
        faceLoop v vt vn fuel p.1 result1 (fv + 1)

/-- Function `objParseLine`. -/
def objParseLine (charSigned : Bool) (result : ObjFile) (line : List Nat) : ObjFile :=
  if charAt line 0 = 118 ∧ charAt line 1 = 32 then
    let x := parseFloat (line.drop 2)
    let y := parseFloat x.2
    let z := parseFloat y.2
    { result with
      v := result.v ++ [x.1, y.1, z.1]
      v_cap := ensureRoom result.v.length 3 result.v_cap }
  else if charAt line 0 = 118 ∧ charAt line 1 = 116 ∧ charAt line 2 = 32 then
    let u := parseFloat (line.drop 3)
    let v := parseFloat u.2
    let w := parseFloat v.2
    { result with
      vt := result.vt ++ [u.1, v.1, w.1]
      vt_cap := ensureRoom result.vt.length 3 result.vt_cap }
  else if charAt line 0 = 118 ∧ charAt line 1 = 110 ∧ charAt line 2 = 32 then
    let x := parseFloat (line.drop 3)
    let y := parseFloat x.2
    let z := parseFloat y.2
    { result with
      vn := result.vn ++ [x.1, y.1, z.1]
      vn_cap := ensureRoom result.vn.length 3 result.vn_cap }
  else if charAt line 0 = 102 ∧ charAt line 1 = 32 then
    let s := line.drop 2
    let r := faceLoop (result.v.length / 3) (result.vt.length / 3) (result.vn.length / 3)
      (s.length + 1) s result 0
    { r.1 with
      fv := r.1.fv ++ [toChar charSigned (r.2 : Int)]
      fv_cap := ensureRoom r.1.fv.length 1 r.1.fv_cap }
  else result

/-! ## Validation -/

/-- The first loop of `objValidate`: `none` when a count below 3 is met
(`return false`), the value of `total_indices` after the loop otherwise. -/
def validateCounts : List Int → Nat → Option Nat
  | [], total_indices => some total_indices
  | fv :: rest, total_indices =>
    if fv < 3 then none else validateCounts rest (total_indices + fv.toNat)

/-- The second loop of `objValidate`, over the index triples.  It runs after
the check `total_indices * 3 != result.f_size`, so the length of the buffer is
a multiple of 3 and the last case, a read past the end, is not reached. -/
def validateIndices (v vt vn : Nat) : List Int → Bool
  | [] => true
  | vi :: vti :: vni :: rest =>
    if vi < 0 then false
    else if 0 ≤ vi ∧ v ≤ vi.toNat then false
    else if 0 ≤ vti ∧ vt ≤ vti.toNat then false
    else if 0 ≤ vni ∧ vn ≤ vni.toNat then false
    else validateIndices v vt vn rest
  | _ => false

/-- Function `objValidate`. -/
def objValidate (result : ObjFile) : Bool :=
  match validateCounts result.fv 0 with
  | none => false
  | some total_indices =>
    if total_indices * 3 ≠ result.f.length then false
    else validateIndices (result.v.length / 3) (result.vt.length / 3) (result.vn.length / 3)
      result.f

/-! ## Triangulation -/

/-- The first loop of `objTriangulate`: `none` when `assert(fv >= 3)` fails,
the value of `total_indices` after the loop otherwise. -/
def triangulateCount : List Int → Nat → Option Nat
  | [], total_indices => some total_indices
  | fv :: rest, total_indices =>
    if 3 ≤ fv then triangulateCount rest (total_indices + ((fv - 2) * 3).toNat) else none

/-- One assignment `f[dst] = result.f[src]`: `none` when the read or the
write is outside its array. -/
def copyCell (old : List Int) (src : Nat) (f : List Int) (dst : Nat) : Option (List Int) :=
  match old[src]? with
  | none => none
  | some x => if dst < f.length then some (f.set dst x) else none

/-- The loop `for (int i = 0; i + 2 < fv; ++i)` of `objTriangulate` for one
face.  The state is `i`, the new index array `f` and `write`.  The loop runs
at most `fv` times, so `fuel = fv` is never used up before the loop
condition fails. -/
def triangulateFace (old : List Int) (read : Nat) (fv : Int) :
    Nat → Nat → List Int → Nat → Option (List Int × Nat)
  | 0, _, f, write => some (f, write)
  | fuel + 1, i, f, write =>
    if (i : Int) + 2 < fv then
      (copyCell old (read + 0) f (write + 0)).bind fun f0 =>
      (copyCell old (read + 1) f0 (write + 1)).bind fun f1 =>
      (copyCell old (read + 2) f1 (write + 2)).bind fun f2 =>
      (copyCell old (read + i * 3 + 3) f2 (write + 3)).bind fun f3 =>
      (copyCell old (read + i * 3 + 4) f3 (write + 4)).bind fun f4 =>
      (copyCell old (read + i * 3 + 5) f4 (write + 5)).bind fun f5 =>
      (copyCell old (read + i * 3 + 6) f5 (write + 6)).bind fun f6 =>
      (copyCell old (read + i * 3 + 7) f6 (write + 7)).bind fun f7 =>
      (copyCell old (read + i * 3 + 8) f7 (write + 8)).bind fun f8 =>
      triangulateFace old read fv fuel (i + 1) f8 (write + 9)
    else some (f, write)

/-- The second loop of `objTriangulate`, over the faces.  The state is
`read`, the new index array `f` and `write`. -/
def triangulateFaces (old : List Int) :
    List Int → Nat → List Int → Nat → Option (List Int × Nat × Nat)
  | [], read, f, write => some (f, read, write)
  | fv :: rest, read, f, write =>
    match triangulateFace old read fv fv.toNat 0 f write with
    | none => none
    | some r => triangulateFaces old rest (read + (fv * 3).toNat) r.1 r.2

/-- Function `objTriangulate`.  The array `new int[total_indices * 3]` starts
with unspecified contents, here zeros.  The result is `none` when an
assertion fails or an access is out of bounds. -/
def objTriangulate (result : ObjFile) : Option ObjFile :=
  match triangulateCount result.fv 0 with
  | none => none
  | some total_indices =>
    match triangulateFaces result.f result.fv 0 (List.replicate (total_indices * 3) 0) 0 with
    | none => none
    | some r =>
      if r.2.1 ≠ result.f.length then none
      else if r.2.2 ≠ total_indices * 3 then none
      else
        some { result with
          f := r.1.take r.2.2
          f_cap := r.2.2
          fv := List.replicate (total_indices / 3) 3
          fv_cap := total_indices / 3 }

/-! ## Reading a file -/

/-- The byte source behind `FILE*`: the bytes not yet delivered, the
end-of-file indicator tested by `feof`, and `reads`, which bounds how many
bytes each of the coming calls of `fread` delivers (a source may deliver less
than is asked before its end is reached).  Once `reads` is used up every call
delivers all that is asked for and available. -/
structure FileStream where
  data : List Nat
  reads : List Nat
  eof : Bool
  deriving DecidableEq, Repr

/-- A freshly opened stream. -/
def FileStream.opened (data : List Nat) (reads : List Nat) : FileStream :=
  { data := data, reads := reads, eof := false }

/-- The call `fread(p, 1, count, file)`: the bytes delivered and the stream
after the call.  A call with `count = 0` does nothing.  The end-of-file
indicator is set when the source ends before the bytes wanted are there. -/
def fread (file : FileStream) (count : Nat) : List Nat × FileStream :=
  if count = 0 then ([], file)
  else
    let want := match file.reads with
      | [] => count
      | c :: _ => min count c
    (file.data.take want,
      { data := file.data.drop want
        reads := file.reads.drop 1
        eof := file.eof || decide (file.data.length < want) })

/-- The call `memchr(p, c, n)` on the `n` bytes `buf`: the offset of the
first occurrence of `c`. -/
def memchr : List Nat → Nat → Option Nat
  | [], _ => none
  | b :: rest, c => if b = c then some 0 else (memchr rest c).map (· + 1)

/-- The null-terminated string that starts at the first of `bytes` once a
`0` has been stored right after them. -/
def cString (bytes : List Nat) : List Nat :=
  bytes.takeWhile (· ≠ 0)

/-- Size of the array `buffer` of `objParseFile`. -/
def bufferSize : Nat := 65536

/-- The loop `while (line < size)` of `objParseFile`.  `pending` holds the
bytes `buffer[line .. size)`; the result is the mesh and the bytes left for
the next round.  Every iteration removes at least one byte, so `fuel` equal
to the number of bytes is never used up. -/
def lineLoop (charSigned : Bool) : Nat → List Nat → ObjFile → ObjFile × List Nat
  | 0, pending, result => (result, pending)
  | fuel + 1, pending, result =>
    match memchr pending 10 with
    | none => (result, pending)
    | some next =>
      lineLoop charSigned fuel (pending.drop (next + 1))
        (objParseLine charSigned result (cString (pending.take next)))

/-- The loop `while (!feof(file))` of `objParseFile`.  The state is the
stream, the `size` bytes at the start of `buffer` and the mesh.  `none`
means that `fuel` rounds did not reach the end of the loop. -/
def readLoop (charSigned : Bool) :
    Nat → FileStream → List Nat → ObjFile → Option (ObjFile × List Nat)
  | 0, _, _, _ => none
  | fuel + 1, file, buffer, result =>
    if file.eof then some (result, buffer)
    else
      let r := fread file (bufferSize - buffer.length)
      let filled := buffer ++ r.1
      let p := lineLoop charSigned filled.length filled result
      readLoop charSigned fuel r.2 p.2 p.1

/-- Function `objParseFile`.  `file` is the result of `fopen`, `none` when
the file cannot be opened.  The result is the value returned together with
the mesh; `none` when `fuel` rounds of the read loop are not enough or
`assert(size < sizeof(buffer))` fails. -/
def objParseFile (charSigned : Bool) (fuel : Nat) (result : ObjFile)
    (file : Option FileStream) : Option (Bool × ObjFile) :=
  match file with
  | none => some (false, result)
  | some stream =>
    match readLoop charSigned fuel stream [] result with
    | none => none
    | some r =>
      if r.2.length ≠ 0 then
        if r.2.length < bufferSize then
          some (true, objParseLine charSigned r.1 (cString r.2))
        else none
      else some (true, r.1)

/-! ## Reference definitions

Definitions that follow the wording of the specification; the theorems
compare the embedded code with them. -/

/-- Face-vertex `j` of a face: its (position, texcoord, normal) index triple. -/
def faceVertex (face : List Int) (j : Nat) : List Int :=
  (face.drop (3 * j)).take 3

/-- Triangle `i` of the fan of a face: face-vertices 0, `i + 1` and `i + 2`. -/
def fanTriangle (face : List Int) (i : Nat) : List Int :=
  faceVertex face 0 ++ faceVertex face (i + 1) ++ faceVertex face (i + 2)

/-- The fan of a face of `n` vertices: triangles `0, ..., n - 3` in order. -/
def fanOfFace (n : Nat) (face : List Int) : List Int :=
  (List.range (n - 2)).flatMap (fanTriangle face)

/-- The fans of all faces, in face order; the face with count `n` owns the
next `3 * n` entries of the index buffer. -/
def fanFaces : List Int → List Int → List Int
  | [], _ => []
  | n :: rest, f =>
    fanOfFace n.toNat (f.take (3 * n.toNat)) ++ fanFaces rest (f.drop (3 * n.toNat))

/-- Sum of the face vertex counts, as a size. -/
def vertexTotal (counts : List Int) : Nat :=
  (counts.map Int.toNat).sum

/-- Number of triangles of the fans: the sum of `count - 2`. -/
def triangleTotal (counts : List Int) : Nat :=
  (counts.map fun c => c.toNat - 2).sum

/-! ## Example inputs -/

/-- The value `parseFloat` returns for a token made of the single digit `d`
(the power is 0, so the first `return` divides by `powers[0]`). -/
def digitValue (d : Nat) : FloatVal :=
  FloatVal.divTable false [d] 0

/-- The unit square as one quadrilateral: the mesh read from the lines
`v 0 0 0`, `v 1 0 0`, `v 1 1 0`, `v 0 1 0`, `f 1 2 3 4`. -/
def quadMesh : ObjFile :=
  { v := [0, 0, 0, 1, 0, 0, 1, 1, 0, 0, 1, 0].map digitValue, v_cap := 32,
    vt := [], vt_cap := 0, vn := [], vn_cap := 0,
    fv := [4], fv_cap := 32,
    f := [0, -1, -1, 1, -1, -1, 2, -1, -1, 3, -1, -1], f_cap := 32 }

/-- A mesh whose only face announces three vertices while the index buffer
was never allocated. -/
def noIndexMesh : ObjFile :=
  { ObjFile.empty with fv := [3], fv_cap := 32 }

/-- Two triangles over four positions, as left by `objTriangulate`. -/
def twoTriangleMesh : ObjFile :=
  { v := [0, 0, 0, 1, 0, 0, 1, 1, 0, 0, 1, 0].map digitValue, v_cap := 32,
    vt := [], vt_cap := 0, vn := [], vn_cap := 0,
    fv := [3, 3], fv_cap := 2,
    f := [0, -1, -1, 1, -1, -1, 2, -1, -1, 0, -1, -1, 2, -1, -1, 3, -1, -1], f_cap := 18 }

/-- The condition `objValidate` puts on one index triple. -/
def TripleOk (v vt vn : Nat) (vi vti vni : Int) : Prop :=
  (0 ≤ vi ∧ vi < (v : Int)) ∧ (vti ≠ -1 → vti < (vt : Int)) ∧ (vni ≠ -1 → vni < (vn : Int))

/-- The bytes of a line given as ASCII text. -/
def ascii (text : String) : List Nat :=
  text.toList.map Char.toNat

/-- Successive calls of `objParseLine`, one per line, in order. -/
def readLines (charSigned : Bool) (result : ObjFile) (lines : List (List Nat)) : ObjFile :=
  lines.foldl (objParseLine charSigned) result

/-- Three positions and the single face `f 1 2 3`. -/
def triangleLines : List (List Nat) :=
  [ascii "v 0 0 0", ascii "v 1 0 0", ascii "v 0 1 0", ascii "f 1 2 3"]

/-- Three positions and a face that refers to a fourth position. -/
def outOfRangeLines : List (List Nat) :=
  [ascii "v 0 0 0", ascii "v 1 0 0", ascii "v 0 1 0", ascii "f 1 2 4"]

/-- Three positions, no texture coordinates, and a face whose three
face-vertices carry the relative texture coordinate reference `-5`, which is
stored as `0 + -5`. -/
def texcoordUnderflowLines : List (List Nat) :=
  [ascii "v 0 0 0", ascii "v 1 0 0", ascii "v 0 1 0", ascii "f 1/-5 2/-5 3/-5"]

/-- The raw triples `(vi, vti, vni)` read by the loop `while (*s)` of the face
branch of `objParseLine`, in order: the loop without its stores. -/
def faceTokens : Nat → List Nat → List (Int × Int × Int)
  | 0, _ => []
  | fuel + 1, s =>
    if deref s = 0 then []
    else
      let p := parseFace s 0 0
      if p.2.1 = 0 then [] else p.2 :: faceTokens fuel p.1

/-- The three entries stored for a raw triple, given the element counts. -/
def fixupTriple (v vt vn : Nat) (t : Int × Int × Int) : List Int :=
  [fixupIndex t.1 v, fixupIndex t.2.1 vt, fixupIndex t.2.2 vn]

/-- Number of face-vertices `objParseLine` reads from a face line. -/
def faceVertexCount (line : List Nat) : Nat :=
  (faceTokens ((line.drop 2).length + 1) (line.drop 2)).length

/-- The test of the face branch of `objParseLine`: the line starts with
`f` and a space. -/
def IsFaceLine (line : List Nat) : Prop :=
  charAt line 0 = 102 ∧ charAt line 1 = 32

instance IsFaceLine.decidable (line : List Nat) : Decidable (IsFaceLine line) :=
  inferInstanceAs (Decidable (charAt line 0 = 102 ∧ charAt line 1 = 32))

/-- Number of values a `char` distinguishes from 0 upwards: counts below this
bound are stored unchanged. -/
def charLimit (charSigned : Bool) : Nat :=
  if charSigned then 128 else 256

/-- A face line with 256 face-vertices: `f` followed by 256 times ` 1`. -/
def wideFaceLine : List Nat :=
  102 :: (List.replicate 256 [32, 49]).flatten

/-- Five positions and a face whose position references are `-1`, `-5`
and `1`. -/
def fivePositionLines : List (List Nat) :=
  [ascii "v 0 0 0", ascii "v 1 0 0", ascii "v 2 0 0", ascii "v 3 0 0", ascii "v 4 0 0",
    ascii "f -1 -5 1"]

/-- A mesh with `2^31 + 1` positions (three floats each) and no face. -/
def hugeMesh : ObjFile :=
  { ObjFile.empty with
    v := List.replicate 6442450947 (digitValue 0)
    v_cap := 6442450947 }

/-- The test `c == ' ' || c == '\t'`. -/
def isBlank (c : Nat) : Bool :=
  decide (c = 32 ∨ c = 9)

/-- An index as written in a face-vertex token: an optional sign followed by
a run of ASCII digits. -/
structure IndexText where
  sign : List Nat
  digits : List Nat
  deriving DecidableEq, Repr

/-- The bytes of an index. -/
def IndexText.bytes (t : IndexText) : List Nat :=
  t.sign ++ t.digits

/-- The sign is absent, `+` or `-`, and there is at least one digit. -/
def IndexText.wellFormed (t : IndexText) : Bool :=
  (t.sign == [] || t.sign == [43] || t.sign == [45]) && !t.digits.isEmpty && t.digits.all isDigit

/-- The decimal value of a run of ASCII digits. -/
def decimalValue (digits : List Nat) : Nat :=
  digits.foldl (fun r c => r * 10 + (c - 48)) 0

/-- The value of the digits is not 0 as an unsigned 32-bit number. -/
def IndexText.nonZero (t : IndexText) : Bool :=
  decide (decimalValue t.digits % 4294967296 ≠ 0)

/-- The four shapes of a face-vertex token: `a`, `a/b`, `a//c`, `a/b/c`. -/
inductive FaceToken where
  | position (a : IndexText)
  | texcoord (a b : IndexText)
  | normal (a c : IndexText)
  | full (a b c : IndexText)
  deriving DecidableEq, Repr

/-- The bytes of a face-vertex token. -/
def FaceToken.bytes : FaceToken → List Nat
  | .position a => a.bytes
  | .texcoord a b => a.bytes ++ 47 :: b.bytes
  | .normal a c => a.bytes ++ 47 :: 47 :: c.bytes
  | .full a b c => a.bytes ++ 47 :: (b.bytes ++ 47 :: c.bytes)

/-- Every index of the token is well formed and the position index is not 0. -/
def FaceToken.wellFormed : FaceToken → Bool
  | .position a => a.wellFormed && a.nonZero
  | .texcoord a b => a.wellFormed && a.nonZero && b.wellFormed
  | .normal a c => a.wellFormed && a.nonZero && c.wellFormed
  | .full a b c => a.wellFormed && a.nonZero && b.wellFormed && c.wellFormed

/-- The text of a face after its leading blanks: each token followed by a
run of blanks. -/
def faceBody (items : List (FaceToken × List Nat)) : List Nat :=
  items.flatMap fun p => p.1.bytes ++ p.2

/-- The tokens are well formed, what follows a token is blank, and two
consecutive tokens are separated by at least one blank. -/
def wellFormedBody : List (FaceToken × List Nat) → Bool
  | [] => true
  | [p] => p.1.wellFormed && p.2.all isBlank
  | p :: q :: rest =>
    p.1.wellFormed && p.2.all isBlank && !p.2.isEmpty && wellFormedBody (q :: rest)

/-- A face line: `f`, a space, blanks, and the tokens. -/
def faceLine (lead : List Nat) (items : List (FaceToken × List Nat)) : List Nat :=
  102 :: 32 :: (lead ++ faceBody items)

/-- The value `parseInt` returns for a sign and an unsigned accumulator. -/
def signedValue (negative : Bool) (result : Nat) : Int :=
  if negative then wrapInt32 (-(wrapInt32 (result : Int))) else wrapInt32 (result : Int)

/-- The `int` that `parseInt` returns for an index. -/
def IndexText.value (t : IndexText) : Int :=
  signedValue (t.sign == [45]) (decimalValue t.digits % 4294967296)

/-- The raw triple `(vi, vti, vni)` of a token; 0 stands for an absent index. -/
def FaceToken.raw : FaceToken → Int × Int × Int
  | .position a => (a.value, 0, 0)
  | .texcoord a b => (a.value, b.value, 0)
  | .normal a c => (a.value, 0, c.value)
  | .full a b c => (a.value, b.value, c.value)

/-- The token `1`. -/
def oneToken : FaceToken :=
  .position { sign := [], digits := [49] }

/-- The 256 tokens of `wideFaceLine`: 255 times `1` and a space, then `1`. -/
def wideFaceItems : List (FaceToken × List Nat) :=
  List.replicate 255 (oneToken, [32]) ++ [(oneToken, [])]

/-- The tokens of the face line `f 1/1/1 -2//+3 3/2`. -/
def sampleFaceItems : List (FaceToken × List Nat) :=
  [(.full ⟨[], [49]⟩ ⟨[], [49]⟩ ⟨[], [49]⟩, [32]),
    (.normal ⟨[45], [50]⟩ ⟨[43], [51]⟩, [32]),
    (.texcoord ⟨[], [51]⟩ ⟨[], [50]⟩, [])]

/-- The lines of a byte stream: the lines terminated by `'\n'`, in order and
without their terminator, and the bytes after the last terminator. -/
def splitLines : List Nat → List (List Nat) × List Nat
  | [] => ([], [])
  | c :: rest =>
    let r := splitLines rest
    if c = 10 then ([] :: r.1, r.2)
    else
      match r.1 with
      | [] => ([], c :: r.2)
      | l :: ls => ((c :: l) :: ls, r.2)

/-- One line handed to `objParseLine` as a null-terminated string. -/
def dispatchLine (charSigned : Bool) (result : ObjFile) (line : List Nat) : ObjFile :=
  objParseLine charSigned result (cString line)

/-- The mesh obtained by dispatching to `objParseLine`, in file order, each
terminated line of the stream and then the unterminated last line when it is
not empty.  Each line reaches `objParseLine` as a null-terminated string. -/
def parseStream (charSigned : Bool) (result : ObjFile) (data : List Nat) : ObjFile :=
  let r := splitLines data
  let m := r.1.foldl (dispatchLine charSigned) result
  if r.2 = [] then m else dispatchLine charSigned m r.2

/-- Every line of the stream, terminated or not, is shorter than the
buffer of `objParseFile`. -/
def linesFit (data : List Nat) : Bool :=
  (splitLines data).1.all (fun l => decide (l.length < bufferSize)) &&
    decide ((splitLines data).2.length < bufferSize)

/-- A stream that is one line of 65536 bytes `x` without terminator. -/
def longLineData : List Nat :=
  List.replicate 65536 120

/-- The bytes of a file of five lines, the last one without terminator. -/
def quadFileData : List Nat :=
  ascii "v 0 0 0\nv 1 0 0\nv 1 1 0\nv 0 1 0\nf 1 2 3 4"

/-- The lines of the unit square: four positions and one quadrilateral. -/
def quadLines : List (List Nat) :=
  [ascii "v 0 0 0", ascii "v 1 0 0", ascii "v 1 1 0", ascii "v 0 1 0", ascii "f 1 2 3 4"]

/-- Lines that `objParseLine` passes over: the empty line, a comment, and
group, object, smoothing and material library statements. -/
def ignoredLines : List (List Nat) :=
  [[], ascii "# unit square", ascii "g side", ascii "o square", ascii "s 1",
    ascii "mtllib square.mtl"]

/-- Every buffer of the mesh holds no more elements than its capacity. -/
def withinCapacity (m : ObjFile) : Bool :=
  decide (m.v.length ≤ m.v_cap) && decide (m.vt.length ≤ m.vt_cap) &&
    decide (m.vn.length ≤ m.vn_cap) && decide (m.fv.length ≤ m.fv_cap) &&
    decide (m.f.length ≤ m.f_cap)

/-- A capacity that `growArray` has produced from an empty buffer, or none
yet: 0 or at least 32. -/
def grownCapacity (cap : Nat) : Prop :=
  cap = 0 ∨ 32 ≤ cap

/-- The representation invariant of the meshes built by `objParseLine` alone:
every buffer is within its capacity and every capacity is 0 or at least 32. -/
def ParsedInvariant (m : ObjFile) : Prop :=
  (m.v.length ≤ m.v_cap ∧ grownCapacity m.v_cap) ∧
  (m.vt.length ≤ m.vt_cap ∧ grownCapacity m.vt_cap) ∧
  (m.vn.length ≤ m.vn_cap ∧ grownCapacity m.vn_cap) ∧
  (m.fv.length ≤ m.fv_cap ∧ grownCapacity m.fv_cap) ∧
  (m.f.length ≤ m.f_cap ∧ grownCapacity m.f_cap)

/-- Every index of the token is well formed (the position index may be 0). -/
def FaceToken.shaped : FaceToken → Bool
  | .position a => a.wellFormed
  | .texcoord a b => a.wellFormed && b.wellFormed
  | .normal a c => a.wellFormed && c.wellFormed
  | .full a b c => a.wellFormed && b.wellFormed && c.wellFormed

/-- The cells of the array that `growArray` installs: `fresh` is the content
of `new T[newcapacity]` before the copy, and `memcpy` overwrites its first
`capacity` cells with those of the old array `data`. -/
def growArrayCells {α : Type} (data : List α) (capacity : Nat) (fresh : List α) : List α :=
  data.take capacity ++ fresh.drop capacity

/-- A number as `parseFloat` reads it: an optional sign, the digits of the
integer part, the digits after a `.` when there is one, and an exponent when
there is one: the byte `e` or `E`, an optional sign and digits.  Every run of
digits may be empty. -/
structure FloatText where
  sign : List Nat
  whole : List Nat
  fraction : Option (List Nat)
  exponent : Option (Nat × List Nat × List Nat)
  deriving DecidableEq, Repr

/-- The bytes of the fractional part: `.` and the digits. -/
def FloatText.fractionBytes (t : FloatText) : List Nat :=
  match t.fraction with
  | none => []
  | some ds => 46 :: ds

/-- The bytes of the exponent part: `e` or `E`, the sign and the digits. -/
def FloatText.exponentBytes (t : FloatText) : List Nat :=
  match t.exponent with
  | none => []
  | some e => e.1 :: (e.2.1 ++ e.2.2)

/-- The bytes of the number. -/
def FloatText.bytes (t : FloatText) : List Nat :=
  t.sign ++ (t.whole ++ (t.fractionBytes ++ t.exponentBytes))

/-- A sign is absent, `+` or `-`. -/
def isSignText (sign : List Nat) : Bool :=
  sign == [] || sign == [43] || sign == [45]

/-- The parts have the announced form. -/
def FloatText.wellFormed (t : FloatText) : Bool :=
  isSignText t.sign && t.whole.all isDigit &&
    (match t.fraction with
      | none => true
      | some ds => ds.all isDigit) &&
    (match t.exponent with
      | none => true
      | some e => (e.1 == 101 || e.1 == 69) && isSignText e.2.1 && e.2.2.all isDigit)

/-- The digits after the `.`. -/
def FloatText.fractionDigits (t : FloatText) : List Nat :=
  match t.fraction with
  | none => []
  | some ds => ds

/-- The signed value of the exponent, 0 without exponent part. -/
def FloatText.exponentValue (t : FloatText) : Int :=
  match t.exponent with
  | none => 0
  | some e => (if e.2.1 = [45] then -1 else 1) * (decimalValue e.2.2 : Int)

/-- The digits of the mantissa, as values: those of the integer part followed
by those of the fraction. -/
def FloatText.mantissa (t : FloatText) : List Nat :=
  (t.whole ++ t.fractionDigits).map (· - 48)

/-- The power of ten: the exponent minus the number of fraction digits. -/
def FloatText.power (t : FloatText) : Int :=
  t.exponentValue - (t.fractionDigits.length : Int)

/-- The exponent and the number of fraction digits fit the `int` variables
that hold them. -/
def FloatText.powerFits (t : FloatText) : Bool :=
  decide ((t.fractionDigits.length : Int) + Int.natAbs t.exponentValue < 2147483648)

/-- The value `parseFloat` returns for the number: the mantissa divided by
`powers[-P]` for `-22 ≤ P ≤ 0`, multiplied by `powers[P]` for `0 < P ≤ 22`,
multiplied by `pow(10.0, P)` otherwise. -/
def FloatText.result (t : FloatText) : FloatVal :=
  if -22 ≤ t.power ∧ t.power ≤ 0 then
    FloatVal.divTable (t.sign == [45]) t.mantissa (-t.power).toNat
  else if 0 < t.power ∧ t.power ≤ 22 then
    FloatVal.mulTable (t.sign == [45]) t.mantissa t.power.toNat
  else FloatVal.mulPow (t.sign == [45]) t.mantissa t.power

/-- What follows a number does not continue it: not a digit, `.`, `e`, `E`
or a sign. -/
def floatStop (rest : List Nat) : Bool :=
  !isDigit (deref rest) && deref rest != 46 && (deref rest ||| 32) != 101 &&
    deref rest != 43 && deref rest != 45

/-- The number `-12.50e-3`. -/
def sampleFloatText : FloatText :=
  { sign := [45], whole := ascii "12", fraction := some (ascii "50"),
    exponent := some (101, [45], ascii "3") }

/-- The number `1e4294967296`, whose exponent is `2^32`. -/
def hugeExponentText : FloatText :=
  { sign := [], whole := ascii "1", fraction := none,
    exponent := some (101, [], ascii "4294967296") }

/-! # Properties -/

/-! ## Triangulation: the loops -/

theorem three_cells (l : List Int) (a : Nat) (h : a + 3 ≤ l.length) :
    ∃ x y z, l[a]? = some x ∧ l[a + 1]? = some y ∧ l[a + 2]? = some z ∧
      (l.drop a).take 3 = [x, y, z] := by
  have hlen : (l.drop a).length = l.length - a := List.length_drop a l
  have h0 : ∀ k, l[a + k]? = (l.drop a)[k]? := fun k => by
    rw [List.getElem?_drop]
  rcases hd : l.drop a with _ | ⟨x, _ | ⟨y, _ | ⟨z, rest⟩⟩⟩
  · rw [hd] at hlen; simp at hlen; omega
  · rw [hd] at hlen; simp at hlen; omega
  · rw [hd] at hlen; simp at hlen; omega
  · refine ⟨x, y, z, ?_, ?_, ?_, ?_⟩
    · have := h0 0; simpa [hd] using this
    · have := h0 1; simpa [hd] using this
    · have := h0 2; simpa [hd] using this
    · simp

theorem copyCell_fill (old done : List Int) (src k : Nat) (x : Int)
    (h : old[src]? = some x) :
    copyCell old src (done ++ List.replicate (k + 1) 0) done.length =
      some ((done ++ [x]) ++ List.replicate k 0) := by
  simp [copyCell, h, List.set_append, List.replicate_succ]

theorem copyCell_fill_at (old done : List Int) (src k dst : Nat) (x : Int)
    (h : old[src]? = some x) (hd : dst = done.length) :
    copyCell old src (done ++ List.replicate (k + 1) 0) dst =
      some ((done ++ [x]) ++ List.replicate k 0) := by
  subst hd; exact copyCell_fill old done src k x h


theorem copy_nine (old done : List Int) (K w : Nat) (hw : w = done.length)
    (s0 s1 s2 s3 s4 s5 s6 s7 s8 : Nat) (x0 x1 x2 x3 x4 x5 x6 x7 x8 : Int)
    (h0 : old[s0]? = some x0) (h1 : old[s1]? = some x1) (h2 : old[s2]? = some x2)
    (h3 : old[s3]? = some x3) (h4 : old[s4]? = some x4) (h5 : old[s5]? = some x5)
    (h6 : old[s6]? = some x6) (h7 : old[s7]? = some x7) (h8 : old[s8]? = some x8)
    (g : List Int → Option (List Int × Nat)) :
    ((copyCell old s0 (done ++ List.replicate (K + 9) 0) (w + 0)).bind fun f0 =>
      (copyCell old s1 f0 (w + 1)).bind fun f1 =>
      (copyCell old s2 f1 (w + 2)).bind fun f2 =>
      (copyCell old s3 f2 (w + 3)).bind fun f3 =>
      (copyCell old s4 f3 (w + 4)).bind fun f4 =>
      (copyCell old s5 f4 (w + 5)).bind fun f5 =>
      (copyCell old s6 f5 (w + 6)).bind fun f6 =>
      (copyCell old s7 f6 (w + 7)).bind fun f7 =>
      (copyCell old s8 f7 (w + 8)).bind g) =
    g (done ++ [x0, x1, x2, x3, x4, x5, x6, x7, x8] ++ List.replicate K 0) := by
  subst hw
  rw [copyCell_fill_at old done s0 (K + 8) _ x0 h0 (by simp), Option.some_bind,
    copyCell_fill_at old _ s1 (K + 7) _ x1 h1 (by simp), Option.some_bind,
    copyCell_fill_at old _ s2 (K + 6) _ x2 h2 (by simp), Option.some_bind,
    copyCell_fill_at old _ s3 (K + 5) _ x3 h3 (by simp), Option.some_bind,
    copyCell_fill_at old _ s4 (K + 4) _ x4 h4 (by simp), Option.some_bind,
    copyCell_fill_at old _ s5 (K + 3) _ x5 h5 (by simp), Option.some_bind,
    copyCell_fill_at old _ s6 (K + 2) _ x6 h6 (by simp), Option.some_bind,
    copyCell_fill_at old _ s7 (K + 1) _ x7 h7 (by simp), Option.some_bind,
    copyCell_fill_at old _ s8 K _ x8 h8 (by simp)]
  simp

theorem faceVertex_window (old : List Int) (read n j : Nat) (hj : j < n) :
    faceVertex ((old.drop read).take (3 * n)) j = (old.drop (read + 3 * j)).take 3 := by
  unfold faceVertex
  rw [List.drop_take, List.take_take, List.drop_drop]
  congr 1
  omega

theorem triangulateFace_spec (old : List Int) (read n : Nat)
    (hread : read + 3 * n ≤ old.length) :
    ∀ (fuel i : Nat) (done : List Int) (extra w : Nat), w = done.length →
      n ≤ i + 2 + fuel →
      triangulateFace old read (n : Int) fuel i
        (done ++ List.replicate (9 * (n - 2 - i) + extra) 0) w =
      some (done ++ (List.range' i (n - 2 - i)).flatMap
          (fanTriangle ((old.drop read).take (3 * n))) ++ List.replicate extra 0,
        w + 9 * (n - 2 - i)) := by
  intro fuel
  induction fuel with
  | zero =>
    intro i done extra w hw hn
    have : n - 2 - i = 0 := by omega
    simp [triangulateFace, this]
  | succ fuel ih =>
    intro i done extra w hw hn
    by_cases hi : (i : Int) + 2 < (n : Int)
    · have hi2 : i + 2 < n := by exact_mod_cast hi
      obtain ⟨x0, x1, x2, hx0, hx1, hx2, hA⟩ := three_cells old read (by omega)
      obtain ⟨y0, y1, y2, hy0, hy1, hy2, hB⟩ := three_cells old (read + 3 * (i + 1)) (by omega)
      obtain ⟨z0, z1, z2, hz0, hz1, hz2, hC⟩ := three_cells old (read + 3 * (i + 2)) (by omega)
      have e3 : read + i * 3 + 3 = read + 3 * (i + 1) := by ring
      have e4 : read + i * 3 + 4 = read + 3 * (i + 1) + 1 := by ring
      have e5 : read + i * 3 + 5 = read + 3 * (i + 1) + 2 := by ring
      have e6 : read + i * 3 + 6 = read + 3 * (i + 2) := by ring
      have e7 : read + i * 3 + 7 = read + 3 * (i + 2) + 1 := by ring
      have e8 : read + i * 3 + 8 = read + 3 * (i + 2) + 2 := by ring
      have hK : 9 * (n - 2 - i) + extra = (9 * (n - 2 - (i + 1)) + extra) + 9 := by omega
      have hT : fanTriangle ((old.drop read).take (3 * n)) i =
          [x0, x1, x2, y0, y1, y2, z0, z1, z2] := by
        unfold fanTriangle
        rw [faceVertex_window old read n 0 (by omega),
          faceVertex_window old read n (i + 1) (by omega),
          faceVertex_window old read n (i + 2) (by omega)]
        simp only [Nat.mul_zero, Nat.add_zero]
        rw [hA, hB, hC]; rfl
      rw [triangulateFace, if_pos hi, hK, e3, e4, e5, e6, e7, e8]
      rw [copy_nine old done _ w hw _ _ _ _ _ _ _ _ _ x0 x1 x2 y0 y1 y2 z0 z1 z2
        (by simpa using hx0) hx1 hx2 hy0 hy1 hy2 hz0 hz1 hz2]
      rw [ih (i + 1) _ extra (w + 9) (by simp [hw]) (by omega)]
      have hr : n - 2 - i = (n - 2 - (i + 1)) + 1 := by omega
      rw [hr, List.range'_succ, List.flatMap_cons, hT]
      simp [Nat.add_assoc]
      omega
    · have hi2 : ¬ i + 2 < n := fun h => hi (by exact_mod_cast h)
      have : n - 2 - i = 0 := by omega
      simp [triangulateFace, hi, this]


theorem triangulateCount_spec (counts : List Int) (h : ∀ c ∈ counts, 3 ≤ c) :
    ∀ t : Nat, triangulateCount counts t = some (t + 3 * triangleTotal counts) := by
  induction counts with
  | nil => intro t; simp [triangulateCount, triangleTotal]
  | cons c rest ih =>
    intro t
    have hc : 3 ≤ c := h c (List.mem_cons_self _ _)
    have hrest : ∀ d ∈ rest, 3 ≤ d := fun d hd => h d (List.mem_cons_of_mem _ hd)
    rw [triangulateCount, if_pos hc, ih hrest]
    have e : ((c - 2) * 3).toNat = 3 * (c.toNat - 2) := by omega
    simp only [triangleTotal, List.map_cons, List.sum_cons] at *
    rw [e]; congr 1; ring

theorem faceVertex_length (face : List Int) (j : Nat) (h : 3 * j + 3 ≤ face.length) :
    (faceVertex face j).length = 3 := by
  simp [faceVertex]; omega

theorem fanTriangle_length (face : List Int) (i : Nat) (h : 3 * (i + 2) + 3 ≤ face.length) :
    (fanTriangle face i).length = 9 := by
  simp only [fanTriangle, List.length_append]
  rw [faceVertex_length face 0 (by omega), faceVertex_length face (i + 1) (by omega),
    faceVertex_length face (i + 2) (by omega)]

theorem fan_range_length (face : List Int) :
    ∀ k : Nat, 3 * (k + 2) ≤ face.length →
      ((List.range k).flatMap (fanTriangle face)).length = 9 * k := by
  intro k
  induction k with
  | zero => intro _; simp
  | succ k ih =>
    intro hk
    rw [List.range_succ, List.flatMap_append, List.length_append, ih (by omega)]
    simp only [List.flatMap_cons, List.flatMap_nil, List.append_nil]
    rw [fanTriangle_length face k (by omega)]
    ring

theorem fanOfFace_length (n : Nat) (face : List Int) (hn : 2 ≤ n) (h : 3 * n ≤ face.length) :
    (fanOfFace n face).length = 9 * (n - 2) := by
  unfold fanOfFace
  exact fan_range_length face (n - 2) (by omega)

theorem fanFaces_length (counts : List Int) (h : ∀ c ∈ counts, 3 ≤ c) :
    ∀ f : List Int, 3 * vertexTotal counts ≤ f.length →
      (fanFaces counts f).length = 9 * triangleTotal counts := by
  induction counts with
  | nil => intro f _; simp [fanFaces, triangleTotal]
  | cons c rest ih =>
    intro f hf
    have hc : 3 ≤ c := h c (List.mem_cons_self _ _)
    have hrest : ∀ d ∈ rest, 3 ≤ d := fun d hd => h d (List.mem_cons_of_mem _ hd)
    simp only [vertexTotal, triangleTotal, List.map_cons, List.sum_cons] at *
    rw [fanFaces, List.length_append,
      fanOfFace_length c.toNat _ (by omega) (by simp; omega),
      ih hrest _ (by simp; omega)]
    ring

theorem triangulateFaces_spec (old : List Int) :
    ∀ (counts : List Int) (read : Nat) (done : List Int) (extra w : Nat),
      (∀ c ∈ counts, 3 ≤ c) → read + 3 * vertexTotal counts ≤ old.length →
      w = done.length →
      triangulateFaces old counts read
        (done ++ List.replicate (9 * triangleTotal counts + extra) 0) w =
      some (done ++ fanFaces counts (old.drop read) ++ List.replicate extra 0,
        read + 3 * vertexTotal counts, w + 9 * triangleTotal counts) := by
  intro counts
  induction counts with
  | nil =>
    intro read done extra w _ _ _
    simp [triangulateFaces, fanFaces, vertexTotal, triangleTotal]
  | cons c rest ih =>
    intro read done extra w h hread hw
    have hc : 3 ≤ c := h c (List.mem_cons_self _ _)
    have hrest : ∀ d ∈ rest, 3 ≤ d := fun d hd => h d (List.mem_cons_of_mem _ hd)
    have hvt : vertexTotal (c :: rest) = c.toNat + vertexTotal rest := by
      simp [vertexTotal]
    have htt : triangleTotal (c :: rest) = (c.toNat - 2) + triangleTotal rest := by
      simp [triangleTotal]
    have hcn : c = ((c.toNat : Nat) : Int) := by omega
    have hbuf : 9 * triangleTotal (c :: rest) + extra =
        9 * (c.toNat - 2 - 0) + (9 * triangleTotal rest + extra) := by
      rw [htt]; omega
    have hwin : 3 * c.toNat ≤ ((old.drop read).take (3 * c.toNat)).length := by
      rw [hvt] at hread; simp; omega
    have hfl := fanOfFace_length c.toNat ((old.drop read).take (3 * c.toNat)) (by omega) hwin
    have hface := triangulateFace_spec old read c.toNat (by rw [hvt] at hread; omega)
      c.toNat 0 done (9 * triangleTotal rest + extra) w hw (by omega)
    rw [← hcn, ← List.range_eq_range'] at hface
    rw [show (List.range (c.toNat - 2 - 0)).flatMap
        (fanTriangle ((old.drop read).take (3 * c.toNat))) =
        fanOfFace c.toNat ((old.drop read).take (3 * c.toNat)) from rfl] at hface
    have hmul : (c * 3).toNat = 3 * c.toNat := by omega
    rw [triangulateFaces, hbuf, hface]
    simp only []
    rw [hmul, ih (read + 3 * c.toNat) _ extra _ hrest (by rw [hvt] at hread; omega)
      (by rw [List.length_append, hfl, hw]; simp)]
    rw [fanFaces, hvt, htt, List.drop_drop]
    simp only [List.append_assoc, Nat.add_comm (3 * c.toNat) read, Nat.sub_zero]
    rw [Nat.mul_add, Nat.mul_add, Nat.add_assoc, Nat.add_assoc]

/-- Result of `objTriangulate` on a mesh that satisfies its precondition. -/
theorem objTriangulate_spec (m : ObjFile) (h : ∀ c ∈ m.fv, 3 ≤ c)
    (hlen : m.f.length = 3 * vertexTotal m.fv) :
    objTriangulate m = some { m with
      f := fanFaces m.fv m.f
      f_cap := 9 * triangleTotal m.fv
      fv := List.replicate (triangleTotal m.fv) 3
      fv_cap := triangleTotal m.fv } := by
  have hcount := triangulateCount_spec m.fv h 0
  have hfaces := triangulateFaces_spec m.f m.fv 0 [] 0 0 h (by omega) rfl
  have hl := fanFaces_length m.fv h m.f (by omega)
  simp only [Nat.zero_add, Nat.add_zero, List.nil_append, List.replicate_zero,
    List.append_nil, List.drop_zero] at hcount hfaces
  have e1 : 3 * triangleTotal m.fv * 3 = 9 * triangleTotal m.fv := by ring
  have e2 : 3 * triangleTotal m.fv / 3 = triangleTotal m.fv := by omega
  unfold objTriangulate
  rw [hcount]
  simp only [e1, e2, hfaces, hlen]
  simp [← hl]

/-! ## Triangulation: claims C1, C8, C9 -/

theorem vertexTotal_cast (counts : List Int) (h : ∀ c ∈ counts, 3 ≤ c) :
    ((vertexTotal counts : Nat) : Int) = counts.sum := by
  induction counts with
  | nil => simp [vertexTotal]
  | cons c rest ih =>
    have hc : 3 ≤ c := h c (List.mem_cons_self _ _)
    have hrest : ∀ d ∈ rest, 3 ≤ d := fun d hd => h d (List.mem_cons_of_mem _ hd)
    have := ih hrest
    simp only [vertexTotal, List.map_cons, List.sum_cons] at *
    omega

theorem triangleTotal_cast (counts : List Int) (h : ∀ c ∈ counts, 3 ≤ c) :
    ((triangleTotal counts : Nat) : Int) = (counts.map fun c => c - 2).sum := by
  induction counts with
  | nil => simp [triangleTotal]
  | cons c rest ih =>
    have hc : 3 ≤ c := h c (List.mem_cons_self _ _)
    have hrest : ∀ d ∈ rest, 3 ≤ d := fun d hd => h d (List.mem_cons_of_mem _ hd)
    have := ih hrest
    simp only [triangleTotal, List.map_cons, List.sum_cons] at *
    omega

theorem length_of_sum (m : ObjFile) (hcount : ∀ c ∈ m.fv, 3 ≤ c)
    (hlen : (m.f.length : Int) = 3 * m.fv.sum) : m.f.length = 3 * vertexTotal m.fv := by
  have := vertexTotal_cast m.fv hcount
  omega

/-- C1. On a mesh whose counts are all at least 3 and whose index buffer has
`3 * sum(faceVertexCounts)` entries, `objTriangulate` returns, and the new
index buffer is the concatenation, in face order, of the fans of the faces:
the face of `n` vertices gives the `n - 2` triangles `i = 0, ..., n - 3`, and
triangle `i` is the index triples of face-vertices 0, `i + 1`, `i + 2`. -/
theorem objTriangulate_fan (m : ObjFile) (hcount : ∀ c ∈ m.fv, 3 ≤ c)
    (hlen : (m.f.length : Int) = 3 * m.fv.sum) :
    ∃ r, objTriangulate m = some r ∧ r.f = fanFaces m.fv m.f :=
  ⟨_, objTriangulate_spec m hcount (length_of_sum m hcount hlen), rfl⟩

/-- C1, witness: the quadrilateral satisfies the precondition and is triangulated into its fan. -/
theorem objTriangulate_fan_witness :
    (∀ c ∈ quadMesh.fv, 3 ≤ c) ∧ ((quadMesh.f.length : Int) = 3 * quadMesh.fv.sum) ∧
      ∃ r, objTriangulate quadMesh = some r ∧ r.f = fanFaces quadMesh.fv quadMesh.f :=
  ⟨by decide, by decide, objTriangulate_fan quadMesh (by decide) (by decide)⟩

/-- C8, as the claim is worded, fails on the quadrilateral: its counts are
all at least 3 and its 12 indices are `3 * 4`, the triangulated index buffer
has 18 entries, and `3 * sum (count - 2)` is 6. -/
theorem objTriangulate_length_counterexample :
    (∀ c ∈ quadMesh.fv, 3 ≤ c) ∧ ((quadMesh.f.length : Int) = 3 * quadMesh.fv.sum) ∧
      ∃ r, objTriangulate quadMesh = some r ∧ r.f.length = 18 ∧
        3 * (quadMesh.fv.map fun c => c - 2).sum = 6 :=
  ⟨by decide, by decide, _, rfl, rfl, by decide⟩

/-- C8, amended. On a mesh that satisfies the triangulation precondition,
`objTriangulate` returns and the new index buffer has
`9 * sum (count - 2)` entries: nine per triangle. -/
theorem objTriangulate_length (m : ObjFile) (hcount : ∀ c ∈ m.fv, 3 ≤ c)
    (hlen : (m.f.length : Int) = 3 * m.fv.sum) :
    ∃ r, objTriangulate m = some r ∧
      (r.f.length : Int) = 9 * (m.fv.map fun c => c - 2).sum := by
  have hl := length_of_sum m hcount hlen
  refine ⟨_, objTriangulate_spec m hcount hl, ?_⟩
  simp only []
  rw [fanFaces_length m.fv hcount m.f (by omega), ← triangleTotal_cast m.fv hcount]
  push_cast; ring

/-- C8, witness: the amended length statement on the quadrilateral. -/
theorem objTriangulate_length_witness :
    (∀ c ∈ quadMesh.fv, 3 ≤ c) ∧ ((quadMesh.f.length : Int) = 3 * quadMesh.fv.sum) ∧
      ∃ r, objTriangulate quadMesh = some r ∧
        (r.f.length : Int) = 9 * (quadMesh.fv.map fun c => c - 2).sum :=
  ⟨by decide, by decide, objTriangulate_length quadMesh (by decide) (by decide)⟩

/-- C9, as the claim is worded, fails: every count of `noIndexMesh` is at
least 3, but its index buffer is empty, the first read `result.f[0]` is out
of bounds and `objTriangulate` produces no mesh. -/
theorem objTriangulate_counts_counterexample :
    (∀ c ∈ noIndexMesh.fv, 3 ≤ c) ∧ objTriangulate noIndexMesh = none :=
  ⟨by decide, rfl⟩

/-- C9, amended. On a mesh whose counts are all at least 3 and whose index
buffer has `3 * sum(faceVertexCounts)` entries, `objTriangulate` returns and
the new count buffer has `sum (count - 2)` entries, each equal to 3, so that
its sum is three times the number of faces. -/
theorem objTriangulate_counts (m : ObjFile) (hcount : ∀ c ∈ m.fv, 3 ≤ c)
    (hlen : (m.f.length : Int) = 3 * m.fv.sum) :
    ∃ r, objTriangulate m = some r ∧
      (r.fv.length : Int) = (m.fv.map fun c => c - 2).sum ∧
      (∀ c ∈ r.fv, c = 3) ∧ r.fv.sum = 3 * (r.fv.length : Int) := by
  refine ⟨_, objTriangulate_spec m hcount (length_of_sum m hcount hlen), ?_, ?_, ?_⟩
  · simp only [List.length_replicate]
    exact triangleTotal_cast m.fv hcount
  · intro c hc
    exact (List.mem_replicate.mp hc).2
  · simp [List.sum_replicate]; ring

/-- C9, witness: the amended count statement on the quadrilateral. -/
theorem objTriangulate_counts_witness :
    (∀ c ∈ quadMesh.fv, 3 ≤ c) ∧ ((quadMesh.f.length : Int) = 3 * quadMesh.fv.sum) ∧
      ∃ r, objTriangulate quadMesh = some r ∧
        (r.fv.length : Int) = (quadMesh.fv.map fun c => c - 2).sum ∧
        (∀ c ∈ r.fv, c = 3) ∧ r.fv.sum = 3 * (r.fv.length : Int) :=
  ⟨by decide, by decide, objTriangulate_counts quadMesh (by decide) (by decide)⟩

/-! ## Triangulation: claim C10 -/

theorem fanOfFace_triangle (face : List Int) (h : face.length = 9) :
    fanOfFace 3 face = face := by
  have e : (List.range (3 - 2)) = [0] := by decide
  unfold fanOfFace
  rw [e]
  simp only [List.flatMap_cons, List.flatMap_nil, List.append_nil, fanTriangle, faceVertex]
  have h9 : face = face.take 9 := by rw [List.take_of_length_le (by omega)]
  conv_rhs => rw [h9, show 9 = 3 + (3 + 3) from rfl, List.take_add, List.take_add]
  simp [List.drop_drop]

theorem fanFaces_triangles :
    ∀ (k : Nat) (f : List Int), f.length = 9 * k → fanFaces (List.replicate k 3) f = f := by
  intro k
  induction k with
  | zero =>
    intro f hf
    have : f = [] := List.length_eq_zero.mp (by omega)
    simp [fanFaces, this]
  | succ k ih =>
    intro f hf
    rw [List.replicate_succ, fanFaces]
    have e : 3 * (3 : Int).toNat = 9 := by decide
    have e3 : (3 : Int).toNat = 3 := by decide
    rw [e, e3, fanOfFace_triangle _ (by simp; omega), ih _ (by simp; omega)]
    exact List.take_append_drop 9 f

theorem vertexTotal_replicate (k : Nat) : vertexTotal (List.replicate k 3) = 3 * k := by
  induction k with
  | zero => simp [vertexTotal]
  | succ k ih =>
    simp only [vertexTotal, List.replicate_succ, List.map_cons, List.sum_cons] at *
    rw [ih]; simp; ring

theorem triangleTotal_replicate (k : Nat) : triangleTotal (List.replicate k 3) = k := by
  induction k with
  | zero => simp [triangleTotal]
  | succ k ih =>
    simp only [triangleTotal, List.replicate_succ, List.map_cons, List.sum_cons] at *
    rw [ih]; simp; ring

/-- Result of `objTriangulate` on a mesh made of triangles. -/
theorem objTriangulate_triangles (m : ObjFile) (hcount : ∀ c ∈ m.fv, c = 3)
    (hlen : m.f.length = 9 * m.fv.length) :
    objTriangulate m = some { m with f_cap := m.f.length, fv_cap := m.fv.length } := by
  have hrep : m.fv = List.replicate m.fv.length 3 := List.eq_replicate_iff.mpr ⟨rfl, hcount⟩
  have h3 : ∀ c ∈ m.fv, 3 ≤ c := fun c hc => by rw [hcount c hc]
  have hv : vertexTotal m.fv = 3 * m.fv.length := by
    rw [hrep, vertexTotal_replicate]; simp
  have ht : triangleTotal m.fv = m.fv.length := by
    rw [hrep, triangleTotal_replicate]; simp
  have hf : fanFaces m.fv m.f = m.f := by
    rw [hrep]; exact fanFaces_triangles _ _ (by simpa using hlen)
  rw [objTriangulate_spec m h3 (by omega), hf, ht, ← hrep, ← hlen]

/-- C10. `objTriangulate` on a mesh made of triangles (every count is 3 and
there are nine indices per face) returns and leaves the five buffers as they
were; hence, on a mesh that satisfies the triangulation precondition,
triangulating the triangulated mesh returns a mesh with the same five
buffers. -/
theorem objTriangulate_idempotent (m : ObjFile) :
    ((∀ c ∈ m.fv, c = 3) → m.f.length = 9 * m.fv.length →
      ∃ r, objTriangulate m = some r ∧ r.f = m.f ∧ r.fv = m.fv ∧
        r.v = m.v ∧ r.vt = m.vt ∧ r.vn = m.vn) ∧
    ((∀ c ∈ m.fv, 3 ≤ c) → (m.f.length : Int) = 3 * m.fv.sum →
      ∃ r1 r2, objTriangulate m = some r1 ∧ objTriangulate r1 = some r2 ∧
        r2.f = r1.f ∧ r2.fv = r1.fv ∧ r2.v = r1.v ∧ r2.vt = r1.vt ∧ r2.vn = r1.vn) := by
  constructor
  · intro hcount hlen
    exact ⟨_, objTriangulate_triangles m hcount hlen, rfl, rfl, rfl, rfl, rfl⟩
  · intro hcount hlen
    have hl := length_of_sum m hcount hlen
    refine ⟨_, _, objTriangulate_spec m hcount hl, objTriangulate_triangles _ ?_ ?_,
      rfl, rfl, rfl, rfl, rfl⟩
    · intro c hc
      exact (List.mem_replicate.mp hc).2
    · simp only [List.length_replicate]
      exact fanFaces_length m.fv hcount m.f (by omega)

/-- C10, witness: both parts, on a mesh of two triangles and on the quadrilateral. -/
theorem objTriangulate_idempotent_witness :
    (∃ r, objTriangulate twoTriangleMesh = some r ∧ r.f = twoTriangleMesh.f ∧
        r.fv = twoTriangleMesh.fv ∧ r.v = twoTriangleMesh.v ∧ r.vt = twoTriangleMesh.vt ∧
        r.vn = twoTriangleMesh.vn) ∧
    (∃ r1 r2, objTriangulate quadMesh = some r1 ∧ objTriangulate r1 = some r2 ∧
        r2.f = r1.f ∧ r2.fv = r1.fv ∧ r2.v = r1.v ∧ r2.vt = r1.vt ∧ r2.vn = r1.vn) :=
  ⟨(objTriangulate_idempotent twoTriangleMesh).1 (by decide) (by decide),
    (objTriangulate_idempotent quadMesh).2 (by decide) (by decide)⟩

/-! ## Validation: the loops -/

theorem validateCounts_some (counts : List Int) (h : ∀ c ∈ counts, 3 ≤ c) :
    ∀ t : Nat, validateCounts counts t = some (t + vertexTotal counts) := by
  induction counts with
  | nil => intro t; simp [validateCounts, vertexTotal]
  | cons c rest ih =>
    intro t
    have hc : 3 ≤ c := h c (List.mem_cons_self _ _)
    have hrest : ∀ d ∈ rest, 3 ≤ d := fun d hd => h d (List.mem_cons_of_mem _ hd)
    rw [validateCounts, if_neg (by omega), ih hrest]
    simp only [vertexTotal, List.map_cons, List.sum_cons]
    rw [Nat.add_assoc]

theorem validateCounts_none (counts : List Int) (h : ¬ ∀ c ∈ counts, 3 ≤ c) :
    ∀ t : Nat, validateCounts counts t = none := by
  induction counts with
  | nil => exact absurd (fun c hc => absurd hc (List.not_mem_nil c)) h
  | cons c rest ih =>
    intro t
    by_cases hc : c < 3
    · rw [validateCounts, if_pos hc]
    · rw [validateCounts, if_neg hc]
      apply ih
      intro hrest
      apply h
      intro d hd
      rcases List.mem_cons.mp hd with rfl | hd
      · omega
      · exact hrest d hd

theorem validateIndices_iff (v vt vn : Nat) :
    ∀ (n : Nat) (f : List Int), f.length = 3 * n →
      (validateIndices v vt vn f = true ↔
        ∀ i, 3 * i + 2 < f.length →
          TripleOk v vt vn (f.getD (3 * i) 0) (f.getD (3 * i + 1) 0) (f.getD (3 * i + 2) 0)) := by
  intro n
  induction n with
  | zero =>
    intro f hf
    have : f = [] := List.length_eq_zero.mp (by omega)
    subst this
    simp [validateIndices]
  | succ n ih =>
    intro f hf
    rcases f with _ | ⟨vi, _ | ⟨vti, _ | ⟨vni, rest⟩⟩⟩
    · simp only [List.length_nil] at hf; omega
    · simp only [List.length_cons, List.length_nil] at hf; omega
    · simp only [List.length_cons, List.length_nil] at hf; omega
    · have hrest : rest.length = 3 * n := by simp at hf; omega
      have step : (∀ i, 3 * i + 2 < (vi :: vti :: vni :: rest).length →
            TripleOk v vt vn ((vi :: vti :: vni :: rest).getD (3 * i) 0)
              ((vi :: vti :: vni :: rest).getD (3 * i + 1) 0)
              ((vi :: vti :: vni :: rest).getD (3 * i + 2) 0)) ↔
          (TripleOk v vt vn vi vti vni ∧ ∀ i, 3 * i + 2 < rest.length →
            TripleOk v vt vn (rest.getD (3 * i) 0) (rest.getD (3 * i + 1) 0)
              (rest.getD (3 * i + 2) 0)) := by
        constructor
        · intro h
          refine ⟨by simpa using h 0 (by simp), fun i hi => ?_⟩
          have := h (i + 1) (by simp; omega)
          simpa [Nat.mul_add, List.getD_cons_succ] using this
        · rintro ⟨h0, hr⟩ i hi
          cases i with
          | zero => simpa using h0
          | succ i =>
            have := hr i (by simp at hi; omega)
            simpa [Nat.mul_add, List.getD_cons_succ] using this
      rw [step, ← ih rest hrest, validateIndices]
      unfold TripleOk
      by_cases h1 : vi < 0
      · simp [h1]
      by_cases h2 : 0 ≤ vi ∧ v ≤ vi.toNat
      · simp [h1, h2]; intro _ h; omega
      by_cases h3 : 0 ≤ vti ∧ vt ≤ vti.toNat
      · simp only [h1, h2, h3, if_true, if_false]
        simp; intro _ _ h; omega
      by_cases h4 : 0 ≤ vni ∧ vn ≤ vni.toNat
      · simp only [h1, h2, h3, h4, if_true, if_false]
        simp; intro _ _ _ h; omega
      · simp only [h1, h2, h3, h4, if_false]
        have : (0 ≤ vi ∧ vi < (v : Int)) ∧ (vti ≠ -1 → vti < (vt : Int)) ∧
            (vni ≠ -1 → vni < (vn : Int)) := by
          refine ⟨⟨by omega, by omega⟩, fun _ => by omega, fun _ => by omega⟩
        exact ⟨fun h => ⟨this, h⟩, fun h => h.2⟩

/-! ## Validation: claims C2, C7 -/

theorem objValidate_true_iff (m : ObjFile) :
    objValidate m = true ↔
      (∀ c ∈ m.fv, 3 ≤ c) ∧ 3 * m.fv.sum = (m.f.length : Int) ∧
      ∀ i, 3 * i + 2 < m.f.length →
        TripleOk (m.v.length / 3) (m.vt.length / 3) (m.vn.length / 3)
          (m.f.getD (3 * i) 0) (m.f.getD (3 * i + 1) 0) (m.f.getD (3 * i + 2) 0) := by
  unfold objValidate
  by_cases hall : ∀ c ∈ m.fv, 3 ≤ c
  · have hsum := vertexTotal_cast m.fv hall
    rw [validateCounts_some m.fv hall 0]
    simp only [Nat.zero_add]
    by_cases hlen : vertexTotal m.fv * 3 = m.f.length
    · rw [if_neg (by simpa using hlen),
        validateIndices_iff _ _ _ (vertexTotal m.fv) m.f (by omega)]
      constructor
      · intro h
        exact ⟨hall, by omega, h⟩
      · intro h
        exact h.2.2
    · rw [if_pos hlen]
      constructor
      · intro h; exact absurd h (by simp)
      · intro h; exact absurd h.2.1 (by omega)
  · rw [validateCounts_none m.fv hall 0]
    constructor
    · intro h; exact absurd h (by simp)
    · intro h; exact absurd h.1 hall

/-- C2. `objValidate` returns true exactly when every count is at least 3,
three times the sum of the counts is the number of indices, every position
index is at least 0 and below the number of positions, and every texcoord or
normal index other than the sentinel -1 is below the number of texcoords or
normals.  In particular it returns false when a position index is not below
the number of positions, and true for three positions with the face
`f 1 2 3`. -/
theorem objValidate_iff :
    (∀ m : ObjFile, objValidate m = true ↔
      (∀ c ∈ m.fv, 3 ≤ c) ∧ 3 * m.fv.sum = (m.f.length : Int) ∧
      ∀ i, 3 * i + 2 < m.f.length →
        (0 ≤ m.f.getD (3 * i) 0 ∧ m.f.getD (3 * i) 0 < ((m.v.length / 3 : Nat) : Int)) ∧
        (m.f.getD (3 * i + 1) 0 ≠ -1 →
          m.f.getD (3 * i + 1) 0 < ((m.vt.length / 3 : Nat) : Int)) ∧
        (m.f.getD (3 * i + 2) 0 ≠ -1 →
          m.f.getD (3 * i + 2) 0 < ((m.vn.length / 3 : Nat) : Int))) ∧
    (∀ (m : ObjFile) (i : Nat), 3 * i + 2 < m.f.length →
      ((m.v.length / 3 : Nat) : Int) ≤ m.f.getD (3 * i) 0 → objValidate m = false) ∧
    (∀ charSigned, objValidate (readLines charSigned ObjFile.empty triangleLines) = true) := by
  refine ⟨fun m => objValidate_true_iff m, fun m i hi hge => ?_, fun cs => ?_⟩
  · cases hv : objValidate m with
    | false => rfl
    | true =>
      have := ((objValidate_true_iff m).mp hv).2.2 i hi
      unfold TripleOk at this
      omega
  · cases cs <;> decide

/-- C2, witness: the face `f 1 2 4` over three positions is rejected. -/
theorem objValidate_iff_witness :
    3 * 2 + 2 < (readLines true ObjFile.empty outOfRangeLines).f.length ∧
    (((readLines true ObjFile.empty outOfRangeLines).v.length / 3 : Nat) : Int) ≤
      (readLines true ObjFile.empty outOfRangeLines).f.getD (3 * 2) 0 ∧
    objValidate (readLines true ObjFile.empty outOfRangeLines) = false :=
  ⟨by decide, by decide,
    objValidate_iff.2.1 (readLines true ObjFile.empty outOfRangeLines) 2 (by decide) (by decide)⟩

/-- C7, as the claim is worded, fails: the mesh read from three `v` lines and
a face line whose texcoord references are all `-5` passes `objValidate`, and
its texcoord slot of the first face-vertex holds -5, which is neither an
index into the (empty) texcoord buffer nor the sentinel -1. -/
theorem objValidate_range_counterexample :
    objValidate (readLines true ObjFile.empty texcoordUnderflowLines) = true ∧
    (readLines true ObjFile.empty texcoordUnderflowLines).f.getD 1 0 = -5 ∧
    (readLines true ObjFile.empty texcoordUnderflowLines).vt.length / 3 = 0 := by
  decide

/-- C7, amended. If `objValidate` returns true then every position entry of
the index buffer is a valid zero-based index, and every texcoord or normal
entry is either a valid zero-based index into its buffer or negative. -/
theorem objValidate_range (m : ObjFile) (h : objValidate m = true) (j : Nat)
    (hj : j < m.f.length) :
    (j % 3 = 0 → 0 ≤ m.f.getD j 0 ∧ m.f.getD j 0 < ((m.v.length / 3 : Nat) : Int)) ∧
    (j % 3 = 1 → m.f.getD j 0 < 0 ∨
      (0 ≤ m.f.getD j 0 ∧ m.f.getD j 0 < ((m.vt.length / 3 : Nat) : Int))) ∧
    (j % 3 = 2 → m.f.getD j 0 < 0 ∨
      (0 ≤ m.f.getD j 0 ∧ m.f.getD j 0 < ((m.vn.length / 3 : Nat) : Int))) := by
  obtain ⟨hall, hsum, hidx⟩ := (objValidate_true_iff m).mp h
  have h3 : m.f.length % 3 = 0 := by omega
  have ht := hidx (j / 3) (by omega)
  unfold TripleOk at ht
  refine ⟨fun hr => ?_, fun hr => ?_, fun hr => ?_⟩
  · have e : 3 * (j / 3) = j := by omega
    rw [e] at ht
    exact ht.1
  · have e : 3 * (j / 3) + 1 = j := by omega
    rw [e] at ht
    omega
  · have e : 3 * (j / 3) + 2 = j := by omega
    rw [e] at ht
    omega

/-- C7, witness: the amended statement at the normal slot of the first
face-vertex of the triangle mesh. -/
theorem objValidate_range_witness :
    objValidate (readLines true ObjFile.empty triangleLines) = true ∧
    (readLines true ObjFile.empty triangleLines).f.getD 2 0 < 0 := by
  have h := objValidate_range (readLines true ObjFile.empty triangleLines) (by decide) 2
    (by decide)
  exact ⟨by decide, (h.2.2 (by decide)).resolve_right (by decide)⟩

/-! ## Line dispatcher: the face loop -/

theorem skipBlanks_length_le (s : List Nat) : (skipBlanks s).length ≤ s.length := by
  induction s with
  | nil => simp [skipBlanks]
  | cons c s ih =>
    unfold skipBlanks
    split
    · simp; omega
    · simp

theorem skipSign_length_le (s : List Nat) : (skipSign s).length ≤ s.length := by
  unfold skipSign
  split
  · simp
  · exact Nat.le_refl _

theorem parseIntDigits_length_le (s : List Nat) :
    ∀ r, (parseIntDigits s r).2.length ≤ s.length := by
  induction s with
  | nil => intro r; simp [parseIntDigits]
  | cons c s ih =>
    intro r
    unfold parseIntDigits
    split
    · have := ih ((r * 10 + (c - 48)) % 4294967296)
      simp; omega
    · simp

theorem parseIntDigits_progress (s : List Nat) (h : (parseIntDigits s 0).1 ≠ 0) :
    (parseIntDigits s 0).2.length < s.length := by
  cases s with
  | nil => simp [parseIntDigits] at h
  | cons c s =>
    by_cases hc : isDigit c = true
    · rw [parseIntDigits, if_pos hc]
      have := parseIntDigits_length_le s ((0 * 10 + (c - 48)) % 4294967296)
      simp only [List.length_cons]
      omega
    · rw [parseIntDigits, if_neg hc] at h
      exact absurd rfl h

theorem parseInt_length_le (s : List Nat) : (parseInt s).2.length ≤ s.length := by
  unfold parseInt
  have h1 := skipBlanks_length_le s
  have h2 := skipSign_length_le (skipBlanks s)
  have h3 := parseIntDigits_length_le (skipSign (skipBlanks s)) 0
  simp only []
  omega

theorem wrapInt32_eq_zero (n : Nat) (h : n < 4294967296) : wrapInt32 (n : Int) = 0 ↔ n = 0 := by
  unfold wrapInt32
  omega

theorem parseIntDigits_lt (s : List Nat) :
    ∀ r, r < 4294967296 → (parseIntDigits s r).1 < 4294967296 := by
  induction s with
  | nil => intro r hr; simpa [parseIntDigits] using hr
  | cons c s ih =>
    intro r hr
    unfold parseIntDigits
    split
    · exact ih _ (Nat.mod_lt _ (by decide))
    · simpa using hr

theorem parseInt_progress (s : List Nat) (h : (parseInt s).1 ≠ 0) :
    (parseInt s).2.length < s.length := by
  have h1 := skipBlanks_length_le s
  have h2 := skipSign_length_le (skipBlanks s)
  have hlt := parseIntDigits_lt (skipSign (skipBlanks s)) 0 (by decide)
  have hne : (parseIntDigits (skipSign (skipBlanks s)) 0).1 ≠ 0 := by
    intro h0
    apply h
    unfold parseInt
    simp only [h0]
    unfold wrapInt32
    split <;> decide
  have h3 := parseIntDigits_progress _ hne
  unfold parseInt
  simp only []
  omega

theorem parseFace_cursor_le (s : List Nat) (vti vni : Int) :
    (parseFace s vti vni).1.length ≤ (parseInt (skipBlanks s)).2.length := by
  unfold parseFace
  simp only []
  by_cases h1 : deref (parseInt (skipBlanks s)).2 ≠ 47
  · rw [if_pos h1]
  · rw [if_neg h1]
    have hd : ((parseInt (skipBlanks s)).2.drop 1).length ≤ (parseInt (skipBlanks s)).2.length := by
      simp
    by_cases h2 : deref ((parseInt (skipBlanks s)).2.drop 1) ≠ 47
    · simp only [if_pos h2]
      have hb := parseInt_length_le ((parseInt (skipBlanks s)).2.drop 1)
      by_cases h3 : deref (parseInt ((parseInt (skipBlanks s)).2.drop 1)).2 ≠ 47
      · rw [if_pos h3]
        simp only []
        omega
      · rw [if_neg h3]
        have hc := parseInt_length_le ((parseInt ((parseInt (skipBlanks s)).2.drop 1)).2.drop 1)
        have hd2 : ((parseInt ((parseInt (skipBlanks s)).2.drop 1)).2.drop 1).length ≤
            (parseInt ((parseInt (skipBlanks s)).2.drop 1)).2.length := by simp
        simp only []
        omega
    · simp only [if_neg h2]
      have hc := parseInt_length_le (((parseInt (skipBlanks s)).2.drop 1).drop 1)
      have hd2 : (((parseInt (skipBlanks s)).2.drop 1).drop 1).length ≤
          ((parseInt (skipBlanks s)).2.drop 1).length := by
        simp only [List.length_drop]; omega
      omega

theorem parseFace_vi (s : List Nat) (vti vni : Int) :
    (parseFace s vti vni).2.1 = (parseInt (skipBlanks s)).1 := by
  unfold parseFace
  simp only []
  by_cases h1 : deref (parseInt (skipBlanks s)).2 ≠ 47
  · rw [if_pos h1]
  · rw [if_neg h1]
    split <;> first | rfl | (split <;> rfl)

theorem parseFace_progress (s : List Nat) (vti vni : Int) (h : (parseFace s vti vni).2.1 ≠ 0) :
    (parseFace s vti vni).1.length < s.length := by
  rw [parseFace_vi] at h
  have h1 := parseFace_cursor_le s vti vni
  have h2 := parseInt_progress (skipBlanks s) h
  have h3 := skipBlanks_length_le s
  omega

/-- The loop of the face branch never runs out of fuel: any two amounts of
fuel above the length of the line give the same result. -/
theorem faceTokens_fuel :
    ∀ (fuel fuel2 : Nat) (s : List Nat), s.length < fuel → s.length < fuel2 →
      faceTokens fuel s = faceTokens fuel2 s := by
  intro fuel
  induction fuel with
  | zero => intro fuel2 s h; omega
  | succ fuel ih =>
    intro fuel2 s h h2
    cases fuel2 with
    | zero => omega
    | succ fuel2 =>
      unfold faceTokens
      split
      · rfl
      · simp only []
        split
        · rfl
        · rename_i hvi
          have := parseFace_progress s 0 0 hvi
          rw [ih fuel2 _ (by omega) (by omega)]

theorem faceLoop_eq (v vt vn : Nat) :
    ∀ (fuel : Nat) (s : List Nat) (result : ObjFile) (fv : Nat),
      (faceLoop v vt vn fuel s result fv).2 = fv + (faceTokens fuel s).length ∧
      (faceLoop v vt vn fuel s result fv).1.f =
        result.f ++ (faceTokens fuel s).flatMap (fixupTriple v vt vn) ∧
      (faceLoop v vt vn fuel s result fv).1.fv = result.fv ∧
      (faceLoop v vt vn fuel s result fv).1.fv_cap = result.fv_cap ∧
      (faceLoop v vt vn fuel s result fv).1.v = result.v ∧
      (faceLoop v vt vn fuel s result fv).1.vt = result.vt ∧
      (faceLoop v vt vn fuel s result fv).1.vn = result.vn ∧
      (faceLoop v vt vn fuel s result fv).1.v_cap = result.v_cap ∧
      (faceLoop v vt vn fuel s result fv).1.vt_cap = result.vt_cap ∧
      (faceLoop v vt vn fuel s result fv).1.vn_cap = result.vn_cap := by
  intro fuel
  induction fuel with
  | zero => intro s result fv; simp [faceLoop, faceTokens]
  | succ fuel ih =>
    intro s result fv
    unfold faceLoop faceTokens
    split
    · simp
    · simp only []
      split
      · simp
      · obtain ⟨h1, h2, h3, h4, h5, h6, h7, h8, h9, h10⟩ := ih (parseFace s 0 0).1
          { result with
            f := result.f ++ [fixupIndex (parseFace s 0 0).2.1 v,
              fixupIndex (parseFace s 0 0).2.2.1 vt, fixupIndex (parseFace s 0 0).2.2.2 vn]
            f_cap := ensureRoom result.f.length 3 result.f_cap } (fv + 1)
        refine ⟨?_, ?_, h3, h4, h5, h6, h7, h8, h9, h10⟩
        · rw [h1]; simp; omega
        · rw [h2]; simp [fixupTriple]

/-- The loop of the face branch never runs out of fuel: any two amounts of
fuel above the length of the line give the same mesh and the same count. -/
theorem faceLoop_fuel (v vt vn : Nat) :
    ∀ (fuel fuel2 : Nat) (s : List Nat) (result : ObjFile) (fv : Nat),
      s.length < fuel → s.length < fuel2 →
      faceLoop v vt vn fuel s result fv = faceLoop v vt vn fuel2 s result fv := by
  intro fuel
  induction fuel with
  | zero => intro fuel2 s result fv h; omega
  | succ fuel ih =>
    intro fuel2 s result fv h h2
    cases fuel2 with
    | zero => omega
    | succ fuel2 =>
      unfold faceLoop
      split
      · rfl
      · simp only []
        split
        · rfl
        · rename_i hvi
          have := parseFace_progress s 0 0 hvi
          rw [ih fuel2 _ _ _ (by omega) (by omega)]

/-! ## Line dispatcher: effect of one call -/

theorem objParseLine_face (charSigned : Bool) (m : ObjFile) (line : List Nat)
    (h : IsFaceLine line) :
    (objParseLine charSigned m line).f =
      m.f ++ (faceTokens ((line.drop 2).length + 1) (line.drop 2)).flatMap
        (fixupTriple (m.v.length / 3) (m.vt.length / 3) (m.vn.length / 3)) ∧
    (objParseLine charSigned m line).fv =
      m.fv ++ [toChar charSigned (faceVertexCount line : Int)] ∧
    (objParseLine charSigned m line).v = m.v ∧
    (objParseLine charSigned m line).vt = m.vt ∧
    (objParseLine charSigned m line).vn = m.vn := by
  obtain ⟨h0, h1⟩ := h
  obtain ⟨e1, e2, e3, _, e5, e6, e7, _, _, _⟩ :=
    faceLoop_eq (m.v.length / 3) (m.vt.length / 3) (m.vn.length / 3)
      ((line.drop 2).length + 1) (line.drop 2) m 0
  unfold objParseLine
  rw [if_neg (by rw [h0]; simp), if_neg (by rw [h0]; simp), if_neg (by rw [h0]; simp),
    if_pos ⟨h0, h1⟩]
  simp only []
  refine ⟨e2, ?_, e5, e6, e7⟩
  rw [e3, e1]
  simp [faceVertexCount]

theorem objParseLine_other (charSigned : Bool) (m : ObjFile) (line : List Nat)
    (h : ¬ IsFaceLine line) :
    (objParseLine charSigned m line).f = m.f ∧ (objParseLine charSigned m line).fv = m.fv := by
  unfold objParseLine
  split
  · exact ⟨rfl, rfl⟩
  · split
    · exact ⟨rfl, rfl⟩
    · split
      · exact ⟨rfl, rfl⟩
      · rw [if_neg (show ¬ (charAt line 0 = 102 ∧ charAt line 1 = 32) from h)]
        exact ⟨rfl, rfl⟩

theorem toChar_small (charSigned : Bool) (k : Nat) (h : k < charLimit charSigned) :
    toChar charSigned (k : Int) = k := by
  unfold toChar charLimit at *
  cases charSigned <;> simp at * <;> omega

theorem flatMap_fixupTriple_length (v vt vn : Nat) (ts : List (Int × Int × Int)) :
    (ts.flatMap (fixupTriple v vt vn)).length = 3 * ts.length := by
  induction ts with
  | nil => simp
  | cons t ts ih => simp [List.flatMap_cons, fixupTriple, ih]; omega

/-- One call of `objParseLine` keeps `len(f) = 3 * sum(fv)` when the count of
the face it reads fits a `char`. -/
theorem objParseLine_keeps_count (charSigned : Bool) (m : ObjFile) (line : List Nat)
    (hfit : IsFaceLine line → faceVertexCount line < charLimit charSigned)
    (hm : (m.f.length : Int) = 3 * m.fv.sum) :
    ((objParseLine charSigned m line).f.length : Int) =
      3 * (objParseLine charSigned m line).fv.sum := by
  by_cases hface : IsFaceLine line
  · obtain ⟨hf, hfv, _⟩ := objParseLine_face charSigned m line hface
    rw [hf, hfv, toChar_small charSigned _ (hfit hface)]
    simp only [List.length_append, flatMap_fixupTriple_length, List.sum_append, List.sum_cons,
      List.sum_nil, faceVertexCount]
    push_cast
    omega
  · obtain ⟨hf, hfv⟩ := objParseLine_other charSigned m line hface
    rw [hf, hfv]; exact hm

theorem readLines_keeps_count (charSigned : Bool) (lines : List (List Nat)) :
    ∀ m : ObjFile,
      (∀ line ∈ lines, IsFaceLine line → faceVertexCount line < charLimit charSigned) →
      (m.f.length : Int) = 3 * m.fv.sum →
      ((readLines charSigned m lines).f.length : Int) =
        3 * (readLines charSigned m lines).fv.sum := by
  induction lines with
  | nil => intro m _ hm; exact hm
  | cons line rest ih =>
    intro m hfit hm
    simp only [readLines, List.foldl_cons]
    exact ih _ (fun l hl => hfit l (List.mem_cons_of_mem _ hl))
      (objParseLine_keeps_count charSigned m line (hfit line (List.mem_cons_self _ _)) hm)

/-! ## Line dispatcher: claim C4 -/

theorem fixupIndex_negative (k : Int) (size : Nat) (hk : k < 0) (hlo : -2147483648 ≤ k)
    (hfit : (size : Int) + k < 2147483648) : fixupIndex k size = size + k := by
  unfold fixupIndex wrapInt32
  rw [if_neg (by omega)]
  omega

/-- C4, as the claim is worded, fails: with `2^31 + 1` positions the count
does not fit the `int` it is converted to, and the reference `-1` is stored
as `-2^31`, not as `count + -1 = 2^31`. -/
theorem objParseLine_fixup_counterexample :
    hugeMesh.v.length / 3 = 2147483649 ∧
    (objParseLine true hugeMesh (ascii "f -1")).f = [-2147483648, -1, -1] := by
  have hlen : hugeMesh.v.length = 6442450947 := List.length_replicate _ _
  refine ⟨by rw [hlen], ?_⟩
  have h := (objParseLine_face true hugeMesh (ascii "f -1") (by decide)).1
  have ht : faceTokens (((ascii "f -1").drop 2).length + 1) ((ascii "f -1").drop 2) =
      [(-1, 0, 0)] := by decide
  rw [h, ht, hlen]
  decide

/-- C4, amended. When `objParseLine` processes a face line, the entries it
stores for a face-vertex are `fixupIndex` of the raw indices against the
element counts at that time; a positive raw index `k` is stored as `k - 1`; a
raw or absent value 0 is stored as -1; a negative raw index `k` is stored as
`count + k` whenever that value fits a signed 32-bit integer.  After five
positions the references -1, -5 and 1 are stored as 4, 0 and 0. -/
theorem objParseLine_fixup :
    (∀ (charSigned : Bool) (m : ObjFile) (line : List Nat), IsFaceLine line →
      (objParseLine charSigned m line).f =
        m.f ++ (faceTokens ((line.drop 2).length + 1) (line.drop 2)).flatMap
          (fun t => [fixupIndex t.1 (m.v.length / 3), fixupIndex t.2.1 (m.vt.length / 3),
            fixupIndex t.2.2 (m.vn.length / 3)])) ∧
    (∀ (k : Int) (count : Nat), 0 < k → fixupIndex k count = k - 1) ∧
    (∀ count : Nat, fixupIndex 0 count = -1) ∧
    (∀ (k : Int) (count : Nat), k < 0 → -2147483648 ≤ k → (count : Int) + k < 2147483648 →
      fixupIndex k count = count + k) ∧
    (∀ charSigned, (readLines charSigned ObjFile.empty fivePositionLines).f =
      [4, -1, -1, 0, -1, -1, 0, -1, -1]) := by
  refine ⟨fun cs m line h => (objParseLine_face cs m line h).1, fun k count hk => ?_,
    fun count => ?_, fixupIndex_negative, fun cs => ?_⟩
  · unfold fixupIndex; rw [if_pos (by omega)]
  · unfold fixupIndex; rw [if_pos (by omega)]; rfl
  · cases cs <;> decide

/-- C4, witness: the relative reference -1 against five positions. -/
theorem objParseLine_fixup_witness :
    ((-1 : Int) < 0) ∧ (-2147483648 ≤ (-1 : Int)) ∧ (((5 : Nat) : Int) + -1 < 2147483648) ∧
    fixupIndex (-1) 5 = ((5 : Nat) : Int) + -1 :=
  ⟨by decide, by decide, by decide,
    objParseLine_fixup.2.2.2.1 (-1) 5 (by decide) (by decide) (by decide)⟩

/-! ## Face lines: the lexer on well-formed text -/

theorem isDigit_bounds (c : Nat) (h : isDigit c = true) : 48 ≤ c ∧ c ≤ 57 := by
  simpa [isDigit] using h

theorem foldl_mod (ds : List Nat) :
    ∀ r : Nat, ds.foldl (fun r c => (r * 10 + (c - 48)) % 4294967296) (r % 4294967296) =
      (ds.foldl (fun r c => r * 10 + (c - 48)) r) % 4294967296 := by
  induction ds with
  | nil => intro r; rfl
  | cons c ds ih =>
    intro r
    simp only [List.foldl_cons]
    have e : (r % 4294967296 * 10 + (c - 48)) % 4294967296 =
        (r * 10 + (c - 48)) % 4294967296 := by omega
    rw [e, ih]

theorem parseIntDigits_stop (rest : List Nat) (hrest : isDigit (deref rest) = false) (r : Nat) :
    parseIntDigits rest r = (r, rest) := by
  cases rest with
  | nil => rfl
  | cons c tl =>
    have hc : isDigit c = false := hrest
    rw [parseIntDigits, if_neg (by simp [hc])]

theorem parseIntDigits_run (ds rest : List Nat) (hrest : isDigit (deref rest) = false) :
    ds.all isDigit = true → ∀ r, parseIntDigits (ds ++ rest) r =
      (ds.foldl (fun r c => (r * 10 + (c - 48)) % 4294967296) r, rest) := by
  induction ds with
  | nil => intro _ r; exact parseIntDigits_stop rest hrest r
  | cons c ds ih =>
    intro h r
    simp only [List.all_cons, Bool.and_eq_true] at h
    rw [List.cons_append, parseIntDigits, if_pos h.1, ih h.2]
    rfl

theorem parseIntDigits_decimal (ds rest : List Nat) (hrest : isDigit (deref rest) = false)
    (hds : ds.all isDigit = true) :
    parseIntDigits (ds ++ rest) 0 = (decimalValue ds % 4294967296, rest) := by
  rw [parseIntDigits_run ds rest hrest hds 0]
  have := foldl_mod ds 0
  simp only [Nat.zero_mod] at this
  rw [this]; rfl

theorem skipBlanks_stop (s : List Nat) (h : isBlank (deref s) = false) : skipBlanks s = s := by
  cases s with
  | nil => rfl
  | cons c tl =>
    have hc : isBlank c = false := h
    rw [skipBlanks, if_neg (by simpa [isBlank] using hc)]

theorem skipBlanks_lead (ws s : List Nat) (hws : ws.all isBlank = true) :
    skipBlanks (ws ++ s) = skipBlanks s := by
  induction ws with
  | nil => rfl
  | cons c ws ih =>
    simp only [List.all_cons, Bool.and_eq_true] at hws
    rw [List.cons_append, skipBlanks, if_pos (by simpa [isBlank] using hws.1), ih hws.2]

theorem signedValue_eq_zero (negative : Bool) (n : Nat) (h : n < 4294967296) :
    signedValue negative n = 0 ↔ n = 0 := by
  unfold signedValue wrapInt32
  cases negative <;> simp <;> omega

theorem parseInt_index (t : IndexText) (rest : List Nat) (hwf : t.wellFormed = true)
    (hrest : isDigit (deref rest) = false) :
    parseInt (t.bytes ++ rest) =
      (signedValue (t.sign == [45]) (decimalValue t.digits % 4294967296), rest) := by
  obtain ⟨sign, digits⟩ := t
  simp only [IndexText.wellFormed, Bool.and_eq_true, Bool.or_eq_true, beq_iff_eq,
    Bool.not_eq_true', List.isEmpty_eq_false] at hwf
  obtain ⟨⟨hsign, hne⟩, hds⟩ := hwf
  cases digits with
  | nil => simp at hne
  | cons d ds =>
    have hd : isDigit d = true := by
      simp only [List.all_cons, Bool.and_eq_true] at hds; exact hds.1
    obtain ⟨hd1, hd2⟩ := isDigit_bounds d hd
    have hrun := parseIntDigits_decimal (d :: ds) rest hrest hds
    rcases hsign with (rfl | rfl) | rfl
    · have hb : skipBlanks (d :: ds ++ rest) = d :: ds ++ rest :=
        skipBlanks_stop _ (by simp [deref, isBlank]; omega)
      have hs : skipSign (d :: ds ++ rest) = d :: ds ++ rest := by
        unfold skipSign
        rw [if_neg (by simp [deref]; omega)]
      have hdr : deref (d :: ds ++ rest) = d := rfl
      have hd45 : d ≠ 45 := by omega
      simp only [parseInt, IndexText.bytes, List.nil_append, hb, hs, hrun, signedValue, hdr]
      simp [hd45]
    · have hb : skipBlanks (43 :: (d :: ds) ++ rest) = 43 :: (d :: ds) ++ rest :=
        skipBlanks_stop _ rfl
      have hs : skipSign (43 :: (d :: ds) ++ rest) = d :: ds ++ rest := by
        unfold skipSign
        rw [if_pos (by simp [deref])]
        rfl
      simp only [parseInt, IndexText.bytes, List.singleton_append, hb, hs, hrun, signedValue]
      simp [deref]
    · have hb : skipBlanks (45 :: (d :: ds) ++ rest) = 45 :: (d :: ds) ++ rest :=
        skipBlanks_stop _ rfl
      have hs : skipSign (45 :: (d :: ds) ++ rest) = d :: ds ++ rest := by
        unfold skipSign
        rw [if_pos (by simp [deref])]
        rfl
      simp only [parseInt, IndexText.bytes, List.singleton_append, hb, hs, hrun, signedValue]
      simp [deref]

theorem index_head (t : IndexText) (rest : List Nat) (hwf : t.wellFormed = true) :
    isBlank (deref (t.bytes ++ rest)) = false ∧ deref (t.bytes ++ rest) ≠ 47 ∧
      deref (t.bytes ++ rest) ≠ 0 := by
  obtain ⟨sign, digits⟩ := t
  simp only [IndexText.wellFormed, Bool.and_eq_true, Bool.or_eq_true, beq_iff_eq,
    Bool.not_eq_true', List.isEmpty_eq_false] at hwf
  obtain ⟨⟨hsign, hne⟩, hds⟩ := hwf
  cases digits with
  | nil => simp at hne
  | cons d ds =>
    have hd : isDigit d = true := by
      simp only [List.all_cons, Bool.and_eq_true] at hds; exact hds.1
    obtain ⟨hd1, hd2⟩ := isDigit_bounds d hd
    rcases hsign with (rfl | rfl) | rfl
    · have hdr : deref (IndexText.bytes ⟨[], d :: ds⟩ ++ rest) = d := rfl
      rw [hdr]
      refine ⟨?_, by omega, by omega⟩
      simp [isBlank]; omega
    · have hdr : deref (IndexText.bytes ⟨[43], d :: ds⟩ ++ rest) = 43 := rfl
      rw [hdr]
      exact ⟨rfl, by decide, by decide⟩
    · have hdr : deref (IndexText.bytes ⟨[45], d :: ds⟩ ++ rest) = 45 := rfl
      rw [hdr]
      exact ⟨rfl, by decide, by decide⟩

theorem parseFace_token (tok : FaceToken) (lead rest : List Nat)
    (hlead : lead.all isBlank = true) (hwf : tok.wellFormed = true)
    (hdigit : isDigit (deref rest) = false) (hslash : deref rest ≠ 47) :
    parseFace (lead ++ (tok.bytes ++ rest)) 0 0 = (rest, tok.raw) := by
  have h47 : ∀ l : List Nat, isDigit (deref (47 :: l)) = false := fun _ => rfl
  cases tok with
  | position a =>
    simp only [FaceToken.wellFormed, Bool.and_eq_true] at hwf
    have hh := index_head a rest hwf.1
    have ha := parseInt_index a rest hwf.1 hdigit
    unfold parseFace
    simp only [FaceToken.bytes]
    rw [skipBlanks_lead _ _ hlead, skipBlanks_stop _ hh.1, ha]
    simp only []
    rw [if_pos hslash]
    rfl
  | texcoord a b =>
    simp only [FaceToken.wellFormed, Bool.and_eq_true] at hwf
    have hh := index_head a (47 :: (b.bytes ++ rest)) hwf.1.1
    have ha := parseInt_index a (47 :: (b.bytes ++ rest)) hwf.1.1 (h47 _)
    have hhb := index_head b rest hwf.2
    have hb := parseInt_index b rest hwf.2 hdigit
    unfold parseFace
    simp only [FaceToken.bytes, List.append_assoc, List.cons_append]
    rw [skipBlanks_lead _ _ hlead, skipBlanks_stop _ hh.1, ha]
    simp only [List.drop_succ_cons, List.drop_zero]
    rw [if_neg (by simp [deref]), if_pos hhb.2.1, hb]
    simp only []
    rw [if_pos hslash]
    rfl
  | normal a c =>
    simp only [FaceToken.wellFormed, Bool.and_eq_true] at hwf
    have hh := index_head a (47 :: 47 :: (c.bytes ++ rest)) hwf.1.1
    have ha := parseInt_index a (47 :: 47 :: (c.bytes ++ rest)) hwf.1.1 (h47 _)
    have hc := parseInt_index c rest hwf.2 hdigit
    unfold parseFace
    simp only [FaceToken.bytes, List.append_assoc, List.cons_append]
    rw [skipBlanks_lead _ _ hlead, skipBlanks_stop _ hh.1, ha]
    simp only [List.drop_succ_cons, List.drop_zero]
    rw [if_neg (by simp [deref]), if_neg (by simp [deref])]
    rw [if_neg (by simp [deref])]
    simp only [List.drop_succ_cons, List.drop_zero]
    rw [hc]
    rfl
  | full a b c =>
    simp only [FaceToken.wellFormed, Bool.and_eq_true] at hwf
    have hh := index_head a (47 :: (b.bytes ++ 47 :: (c.bytes ++ rest))) hwf.1.1.1
    have ha := parseInt_index a (47 :: (b.bytes ++ 47 :: (c.bytes ++ rest))) hwf.1.1.1 (h47 _)
    have hhb := index_head b (47 :: (c.bytes ++ rest)) hwf.1.2
    have hb := parseInt_index b (47 :: (c.bytes ++ rest)) hwf.1.2 (h47 _)
    have hc := parseInt_index c rest hwf.2 hdigit
    unfold parseFace
    simp only [FaceToken.bytes, List.append_assoc, List.cons_append]
    rw [skipBlanks_lead _ _ hlead, skipBlanks_stop _ hh.1, ha]
    simp only [List.drop_succ_cons, List.drop_zero]
    rw [if_neg (by simp [deref]), if_pos hhb.2.1, hb]
    simp only []
    rw [if_neg (by simp [deref])]
    simp only [List.drop_succ_cons, List.drop_zero]
    rw [hc]
    rfl

/-! ## Face lines: the face loop on well-formed text -/

theorem wellFormedBody_cons (p : FaceToken × List Nat) (rest : List (FaceToken × List Nat))
    (h : wellFormedBody (p :: rest) = true) :
    p.1.wellFormed = true ∧ p.2.all isBlank = true ∧ (rest ≠ [] → p.2 ≠ []) ∧
      wellFormedBody rest = true := by
  cases rest with
  | nil =>
    simp only [wellFormedBody, Bool.and_eq_true] at h
    exact ⟨h.1, h.2, fun hne => absurd rfl hne, rfl⟩
  | cons q rest =>
    simp only [wellFormedBody, Bool.and_eq_true, Bool.not_eq_true', List.isEmpty_eq_false] at h
    exact ⟨h.1.1.1, h.1.1.2, fun _ => h.1.2, h.2⟩

theorem blank_head (ws rest : List Nat) (hws : ws.all isBlank = true) (hne : ws ≠ []) :
    isDigit (deref (ws ++ rest)) = false ∧ deref (ws ++ rest) ≠ 47 ∧
      deref (ws ++ rest) ≠ 0 := by
  cases ws with
  | nil => exact absurd rfl hne
  | cons c ws =>
    simp only [List.all_cons, Bool.and_eq_true] at hws
    have hc : c = 32 ∨ c = 9 := by simpa [isBlank] using hws.1
    have hdr : deref (c :: ws ++ rest) = c := rfl
    rw [hdr]
    rcases hc with rfl | rfl <;> exact ⟨rfl, by decide, by decide⟩

theorem token_value_ne_zero (tok : FaceToken) (hwf : tok.wellFormed = true) :
    tok.raw.1 ≠ 0 := by
  have key : ∀ a : IndexText, a.nonZero = true → a.value ≠ 0 := by
    intro a ha h0
    have hn : decimalValue a.digits % 4294967296 ≠ 0 := by
      simpa [IndexText.nonZero] using ha
    exact hn ((signedValue_eq_zero _ _ (Nat.mod_lt _ (by decide))).mp h0)
  cases tok <;> simp only [FaceToken.wellFormed, Bool.and_eq_true] at hwf
  · exact key _ hwf.2
  · exact key _ hwf.1.2
  · exact key _ hwf.1.2
  · exact key _ hwf.1.1.2

theorem token_head (tok : FaceToken) (rest : List Nat) (hwf : tok.wellFormed = true) :
    deref (tok.bytes ++ rest) ≠ 0 := by
  cases tok <;> simp only [FaceToken.wellFormed, Bool.and_eq_true] at hwf <;>
    simp only [FaceToken.bytes, List.append_assoc]
  · exact (index_head _ _ hwf.1).2.2
  · exact (index_head _ _ hwf.1.1).2.2
  · exact (index_head _ _ hwf.1.1).2.2
  · exact (index_head _ _ hwf.1.1.1).2.2

theorem token_bytes_pos (tok : FaceToken) (hwf : tok.wellFormed = true) :
    0 < tok.bytes.length := by
  have h := token_head tok [] hwf
  cases hb : tok.bytes with
  | nil => rw [hb] at h; exact absurd rfl h
  | cons c tl => simp

theorem faceTokens_body :
    ∀ (items : List (FaceToken × List Nat)) (lead : List Nat) (fuel : Nat),
      lead.all isBlank = true → wellFormedBody items = true →
      (lead ++ faceBody items).length < fuel →
      faceTokens fuel (lead ++ faceBody items) = items.map fun p => p.1.raw := by
  intro items
  induction items with
  | nil =>
    intro lead fuel hlead _ hfuel
    cases fuel with
    | zero => omega
    | succ fuel =>
      simp only [faceBody, List.flatMap_nil, List.append_nil, List.map_nil]
      unfold faceTokens
      split
      · rfl
      · have hs : skipBlanks lead = [] := by
          have := skipBlanks_lead lead [] hlead
          simpa using this
        have hvi : (parseFace lead 0 0).2.1 = 0 := by
          rw [parseFace_vi, hs]; rfl
        simp only [hvi, if_true]
  | cons p rest ih =>
    intro lead fuel hlead hbody hfuel
    obtain ⟨hwf, hws, hsep, hrest⟩ := wellFormedBody_cons p rest hbody
    have hsplit : faceBody (p :: rest) = p.1.bytes ++ (p.2 ++ faceBody rest) := by
      simp [faceBody, List.flatMap_cons]
    rw [hsplit] at hfuel ⊢
    have hstop : isDigit (deref (p.2 ++ faceBody rest)) = false ∧
        deref (p.2 ++ faceBody rest) ≠ 47 := by
      by_cases hp : p.2 = []
      · have hr : rest = [] := by
          by_contra hne; exact hsep hne hp
        subst hr
        rw [hp]
        exact ⟨rfl, by decide⟩
      · have := blank_head p.2 (faceBody rest) hws hp
        exact ⟨this.1, this.2.1⟩
    have hface := parseFace_token p.1 lead (p.2 ++ faceBody rest) hlead hwf hstop.1 hstop.2
    have hnz : deref (lead ++ (p.1.bytes ++ (p.2 ++ faceBody rest))) ≠ 0 := by
      by_cases hl : lead = []
      · rw [hl]; exact token_head p.1 _ hwf
      · exact (blank_head lead _ hlead hl).2.2
    cases fuel with
    | zero => omega
    | succ fuel =>
      rw [faceTokens, if_neg hnz]
      simp only [hface]
      have hpos := token_bytes_pos p.1 hwf
      rw [if_neg (token_value_ne_zero p.1 hwf), ih p.2 fuel hws hrest (by
        simp only [List.length_append] at hfuel ⊢; omega)]
      rfl

/-! ## Face lines: claim C3 -/

/-- Effect of `objParseLine` on a well-formed face line. -/
theorem objParseLine_faceLine (charSigned : Bool) (m : ObjFile) (lead : List Nat)
    (items : List (FaceToken × List Nat)) (hlead : lead.all isBlank = true)
    (hbody : wellFormedBody items = true) :
    (objParseLine charSigned m (faceLine lead items)).f =
      m.f ++ (items.map fun p => p.1.raw).flatMap
        (fixupTriple (m.v.length / 3) (m.vt.length / 3) (m.vn.length / 3)) ∧
    (objParseLine charSigned m (faceLine lead items)).fv =
      m.fv ++ [toChar charSigned (items.length : Int)] := by
  have hface : IsFaceLine (faceLine lead items) := ⟨rfl, rfl⟩
  have hdrop : (faceLine lead items).drop 2 = lead ++ faceBody items := rfl
  obtain ⟨hf, hfv, _⟩ := objParseLine_face charSigned m (faceLine lead items) hface
  have htok := faceTokens_body items lead ((lead ++ faceBody items).length + 1) hlead hbody
    (Nat.lt_succ_self _)
  refine ⟨?_, ?_⟩
  · rw [hf, hdrop, htok]
  · rw [hfv, faceVertexCount, hdrop, htok, List.length_map]

set_option maxRecDepth 100000 in
/-- C3, as the claim is worded, fails: the face line made of `f` and 256
well-formed tokens `1` separated by single spaces gets the count
`char(256) = 0`, not 256, whatever the signedness of `char`. -/
theorem objParseLine_face_count_counterexample :
    wellFormedBody wideFaceItems = true ∧ wideFaceItems.length = 256 ∧
    (objParseLine true ObjFile.empty (faceLine [] wideFaceItems)).fv = [0] ∧
    (objParseLine false ObjFile.empty (faceLine [] wideFaceItems)).fv = [0] := by
  have hlen : wideFaceItems.length = 256 := by decide
  have key : ∀ cs, (objParseLine cs ObjFile.empty (faceLine [] wideFaceItems)).fv = [0] := by
    intro cs
    rw [(objParseLine_faceLine cs ObjFile.empty [] wideFaceItems rfl (by decide)).2, hlen]
    cases cs <;> decide
  exact ⟨by decide, by decide, key true, key false⟩

/-- C3, amended. For every mesh and every face line made of `f`, a space,
blanks and `k` well-formed face-vertex tokens (`a`, `a/b`, `a//c` or `a/b/c`
with a position index that is not 0 as a 32-bit value), separated by blanks,
with `k` below the limit of `char` (128 when `char` is signed, 256
otherwise), `objParseLine` appends exactly one entry, of value `k`, to the
count buffer, and exactly `3 * k` entries, the fixed-up triples of the
tokens, to the index buffer. -/
theorem objParseLine_face_count (charSigned : Bool) (m : ObjFile) (lead : List Nat)
    (items : List (FaceToken × List Nat)) (hlead : lead.all isBlank = true)
    (hbody : wellFormedBody items = true) (hfit : items.length < charLimit charSigned) :
    (objParseLine charSigned m (faceLine lead items)).fv = m.fv ++ [(items.length : Int)] ∧
    ∃ added : List Int, added.length = 3 * items.length ∧
      added = (items.map fun p => p.1.raw).flatMap
        (fixupTriple (m.v.length / 3) (m.vt.length / 3) (m.vn.length / 3)) ∧
      (objParseLine charSigned m (faceLine lead items)).f = m.f ++ added := by
  obtain ⟨hf, hfv⟩ := objParseLine_faceLine charSigned m lead items hlead hbody
  refine ⟨?_, _, ?_, rfl, hf⟩
  · rw [hfv, toChar_small charSigned _ hfit]
  · rw [flatMap_fixupTriple_length, List.length_map]

/-- C3, witness: the line `f 1/1/1 -2//+3 3/2` read into the quadrilateral. -/
theorem objParseLine_face_count_witness :
    sampleFaceItems.length = 3 ∧
    (objParseLine true quadMesh (faceLine [] sampleFaceItems)).fv =
      quadMesh.fv ++ [((sampleFaceItems.length : Nat) : Int)] ∧
    ∃ added : List Int, added.length = 3 * sampleFaceItems.length ∧
      added = (sampleFaceItems.map fun p => p.1.raw).flatMap
        (fixupTriple (quadMesh.v.length / 3) (quadMesh.vt.length / 3)
          (quadMesh.vn.length / 3)) ∧
      (objParseLine true quadMesh (faceLine [] sampleFaceItems)).f = quadMesh.f ++ added :=
  ⟨rfl, objParseLine_face_count true quadMesh [] sampleFaceItems rfl (by decide) (by decide)⟩

/-! ## Line dispatcher: claim C5 -/

set_option maxRecDepth 100000 in
/-- C5, as the claim is worded, fails: one call of `objParseLine` on a face
line with 256 face-vertices, from the empty mesh, stores 768 indices and the
count `char(256) = 0`, whatever the signedness of `char`. -/
theorem readLines_count_counterexample :
    ((readLines true ObjFile.empty [wideFaceLine]).f.length = 768 ∧
      (readLines true ObjFile.empty [wideFaceLine]).fv = [0]) ∧
    ((readLines false ObjFile.empty [wideFaceLine]).f.length = 768 ∧
      (readLines false ObjFile.empty [wideFaceLine]).fv = [0]) := by
  have hline : wideFaceLine = faceLine [] wideFaceItems := by decide
  have hlen : wideFaceItems.length = 256 := by decide
  have key : ∀ cs, (readLines cs ObjFile.empty [wideFaceLine]).f.length = 768 ∧
      (readLines cs ObjFile.empty [wideFaceLine]).fv = [0] := by
    intro cs
    obtain ⟨hf, hfv⟩ := objParseLine_faceLine cs ObjFile.empty [] wideFaceItems rfl (by decide)
    simp only [readLines, List.foldl_cons, List.foldl_nil]
    rw [hline, hf, hfv, hlen]
    refine ⟨?_, ?_⟩
    · rw [List.length_append, flatMap_fixupTriple_length, List.length_map, hlen]
      rfl
    · cases cs <;> decide
  exact ⟨key true, key false⟩

/-- C5, amended. Starting from the empty mesh, after any finite sequence of
calls of `objParseLine` on lines none of which is a face line whose number of
face-vertices reaches the limit of `char` (128 when `char` is signed, 256
otherwise), `len(f) = 3 * sum(fv)`. -/
theorem readLines_count (charSigned : Bool) (lines : List (List Nat))
    (hfit : ∀ line ∈ lines, IsFaceLine line → faceVertexCount line < charLimit charSigned) :
    ((readLines charSigned ObjFile.empty lines).f.length : Int) =
      3 * (readLines charSigned ObjFile.empty lines).fv.sum :=
  readLines_keeps_count charSigned lines ObjFile.empty hfit (by decide)

/-- C5, witness: the amended statement on the lines of the triangle. -/
theorem readLines_count_witness :
    (∀ line ∈ triangleLines, IsFaceLine line → faceVertexCount line < charLimit true) ∧
    ((readLines true ObjFile.empty triangleLines).f.length : Int) =
      3 * (readLines true ObjFile.empty triangleLines).fv.sum :=
  ⟨by decide, readLines_count true triangleLines (by decide)⟩

/-! ## Reading a file: splitting into lines -/

theorem memchr_none (c : Nat) : ∀ l : List Nat, (∀ b ∈ l, b ≠ c) → memchr l c = none := by
  intro l
  induction l with
  | nil => intro _; rfl
  | cons b l ih =>
    intro h
    rw [memchr, if_neg (h b (List.mem_cons_self _ _)),
      ih (fun x hx => h x (List.mem_cons_of_mem _ hx))]
    rfl

theorem memchr_eq_none (c : Nat) : ∀ l : List Nat, memchr l c = none → ∀ b ∈ l, b ≠ c := by
  intro l
  induction l with
  | nil => intro _ b hb; exact absurd hb (List.not_mem_nil b)
  | cons x l ih =>
    intro h b hb
    by_cases hx : x = c
    · rw [memchr, if_pos hx] at h; exact absurd h (by simp)
    · rw [memchr, if_neg hx] at h
      have hl : memchr l c = none := by
        cases hm : memchr l c with
        | none => rfl
        | some k => rw [hm] at h; exact absurd h (by simp)
      rcases List.mem_cons.mp hb with rfl | hb
      · exact hx
      · exact ih hl b hb

theorem memchr_eq_some (c : Nat) :
    ∀ (l : List Nat) (k : Nat), memchr l c = some k →
      l = l.take k ++ c :: l.drop (k + 1) ∧ ∀ b ∈ l.take k, b ≠ c := by
  intro l
  induction l with
  | nil => intro k h; exact absurd h (by simp [memchr])
  | cons x l ih =>
    intro k h
    by_cases hx : x = c
    · rw [memchr, if_pos hx] at h
      have hk : k = 0 := by simpa using h.symm
      subst hk
      simp [hx]
    · rw [memchr, if_neg hx] at h
      cases hm : memchr l c with
      | none => rw [hm] at h; exact absurd h (by simp)
      | some j =>
        rw [hm] at h
        have hk : k = j + 1 := by simpa using h.symm
        subst hk
        obtain ⟨h1, h2⟩ := ih j hm
        refine ⟨?_, ?_⟩
        · simp only [List.take_succ_cons, List.drop_succ_cons, List.cons_append]
          rw [← h1]
        · intro b hb
          simp only [List.take_succ_cons] at hb
          rcases List.mem_cons.mp hb with rfl | hb
          · exact hx
          · exact h2 b hb

theorem splitLines_plain : ∀ l : List Nat, (∀ b ∈ l, b ≠ 10) → splitLines l = ([], l) := by
  intro l
  induction l with
  | nil => intro _; rfl
  | cons b l ih =>
    intro h
    rw [splitLines, ih (fun x hx => h x (List.mem_cons_of_mem _ hx))]
    simp only []
    rw [if_neg (h b (List.mem_cons_self _ _))]

theorem splitLines_line (rest : List Nat) :
    ∀ l : List Nat, (∀ b ∈ l, b ≠ 10) →
      splitLines (l ++ 10 :: rest) = (l :: (splitLines rest).1, (splitLines rest).2) := by
  intro l
  induction l with
  | nil =>
    intro _
    rw [List.nil_append, splitLines]
    simp
  | cons b l ih =>
    intro h
    rw [List.cons_append, splitLines, ih (fun x hx => h x (List.mem_cons_of_mem _ hx))]
    simp only []
    rw [if_neg (h b (List.mem_cons_self _ _))]

theorem splitLines_tail_plain : ∀ l : List Nat, ∀ b ∈ (splitLines l).2, b ≠ 10 := by
  intro l
  induction l with
  | nil => intro b hb; exact absurd hb (List.not_mem_nil b)
  | cons c l ih =>
    intro b hb
    rw [splitLines] at hb
    by_cases hc : c = 10
    · rw [if_pos hc] at hb; exact ih b hb
    · rw [if_neg hc] at hb
      cases hs : (splitLines l).1 with
      | nil =>
        rw [hs] at hb
        rcases List.mem_cons.mp hb with rfl | hb
        · exact hc
        · exact ih b hb
      | cons x xs => rw [hs] at hb; exact ih b hb

theorem splitLines_append (b : List Nat) :
    ∀ a : List Nat, splitLines (a ++ b) =
      ((splitLines a).1 ++ (splitLines ((splitLines a).2 ++ b)).1,
        (splitLines ((splitLines a).2 ++ b)).2) := by
  intro a
  induction a with
  | nil => simp [splitLines]
  | cons c a ih =>
    rw [List.cons_append, splitLines, ih]
    by_cases hc : c = 10
    · simp only [hc, if_true]
      rw [splitLines]
      simp
    · simp only [if_neg hc]
      rw [splitLines]
      simp only [if_neg hc]
      cases hs : (splitLines a).1 with
      | nil =>
        simp only [List.nil_append, List.cons_append]
        rw [splitLines]
        simp only [if_neg hc]
      | cons x xs => simp

/-! ## Reading a file: the line loop -/

theorem lineLoop_spec (charSigned : Bool) :
    ∀ (fuel : Nat) (bytes : List Nat) (m : ObjFile), bytes.length ≤ fuel →
      lineLoop charSigned fuel bytes m =
        ((splitLines bytes).1.foldl (dispatchLine charSigned) m, (splitLines bytes).2) := by
  intro fuel
  induction fuel with
  | zero =>
    intro bytes m h
    have : bytes = [] := List.length_eq_zero.mp (by omega)
    subst this
    rfl
  | succ fuel ih =>
    intro bytes m h
    rw [lineLoop]
    cases hm : memchr bytes 10 with
    | none =>
      simp only []
      rw [splitLines_plain bytes (memchr_eq_none 10 bytes hm)]
      rfl
    | some k =>
      simp only []
      obtain ⟨hsplit, hplain⟩ := memchr_eq_some 10 bytes k hm
      have hlen : (bytes.drop (k + 1)).length + (bytes.take k).length + 1 = bytes.length := by
        conv_rhs => rw [hsplit]
        simp only [List.length_append, List.length_cons]
        omega
      rw [ih _ _ (by omega), congrArg splitLines hsplit, splitLines_line _ _ hplain]
      rfl

theorem linesFit_rest (a b : List Nat) (h : linesFit (a ++ b) = true) :
    linesFit ((splitLines a).2 ++ b) = true := by
  unfold linesFit at h ⊢
  rw [splitLines_append] at h
  simp only [Bool.and_eq_true, List.all_append] at h ⊢
  exact ⟨h.1.2, h.2⟩

theorem segment_bound :
    ∀ (data buf : List Nat), (∀ b ∈ buf, b ≠ 10) → linesFit (buf ++ data) = true →
      buf.length < bufferSize := by
  intro data
  induction data with
  | nil =>
    intro buf hbuf h
    unfold linesFit at h
    rw [List.append_nil, splitLines_plain buf hbuf] at h
    simpa using h
  | cons c data ih =>
    intro buf hbuf h
    by_cases hc : c = 10
    · subst hc
      unfold linesFit at h
      rw [splitLines_line _ _ hbuf] at h
      simp only [List.all_cons, Bool.and_eq_true, decide_eq_true_eq] at h
      exact h.1.1
    · have h2 : buf ++ c :: data = (buf ++ [c]) ++ data := by simp
      rw [h2] at h
      have := ih (buf ++ [c]) (by
        intro b hb
        rcases List.mem_append.mp hb with hb | hb
        · exact hbuf b hb
        · simp at hb; rw [hb]; exact hc) h
      simp at this
      omega

/-! ## Reading a file: the read loop -/

theorem fread_spec (file : FileStream) (count : Nat) (hcount : count ≠ 0)
    (heof : file.eof = false) :
    ∃ want : Nat, (fread file count).1 = file.data.take want ∧
      (fread file count).2.data = file.data.drop want ∧
      (fread file count).2.reads = file.reads.drop 1 ∧
      (fread file count).2.eof = decide (file.data.length < want) ∧
      (file.reads = [] → want = count) := by
  unfold fread
  rw [if_neg hcount]
  cases hr : file.reads with
  | nil => exact ⟨count, rfl, rfl, by simp [hr], by simp [heof], fun _ => rfl⟩
  | cons c cs =>
    exact ⟨min count c, rfl, rfl, by simp [hr], by simp [heof], fun h => absurd h (by simp)⟩

/-- The read loop of `objParseFile` on a stream whose lines fit the buffer:
with enough fuel it ends, having dispatched every terminated line of the
bytes still to be processed, and leaves the unterminated tail in the buffer. -/
theorem readLoop_spec (charSigned : Bool) :
    ∀ (bound : Nat) (file : FileStream) (buf : List Nat) (m : ObjFile),
      file.data.length + file.reads.length + (if file.eof then 0 else 1) ≤ bound →
      (∀ b ∈ buf, b ≠ 10) → linesFit (buf ++ file.data) = true →
      (file.eof = true → file.data = []) →
      ∀ fuel, bound < fuel →
        readLoop charSigned fuel file buf m =
          some ((splitLines (buf ++ file.data)).1.foldl (dispatchLine charSigned) m,
            (splitLines (buf ++ file.data)).2) := by
  have hend : ∀ (file : FileStream) (buf : List Nat) (m : ObjFile) (fuel : Nat),
      file.eof = true → (∀ b ∈ buf, b ≠ 10) → file.data = [] →
      readLoop charSigned (fuel + 1) file buf m =
        some ((splitLines (buf ++ file.data)).1.foldl (dispatchLine charSigned) m,
          (splitLines (buf ++ file.data)).2) := by
    intro file buf m fuel he hbuf hd
    rw [readLoop, if_pos he, hd, List.append_nil, splitLines_plain buf hbuf]
    rfl
  intro bound
  induction bound with
  | zero =>
    intro file buf m hmeasure hbuf hfit hdata fuel hfuel
    have he : file.eof = true := by
      cases h : file.eof with
      | true => rfl
      | false => rw [h] at hmeasure; simp at hmeasure
    cases fuel with
    | zero => omega
    | succ fuel => exact hend file buf m fuel he hbuf (hdata he)
  | succ bound ih =>
    intro file buf m hmeasure hbuf hfit hdata fuel hfuel
    cases fuel with
    | zero => omega
    | succ fuel =>
      cases he : file.eof with
      | true => exact hend file buf m fuel he hbuf (hdata he)
      | false =>
        have hroom := segment_bound file.data buf hbuf hfit
        obtain ⟨want, h1, h2, h3, h4, h5⟩ :=
          fread_spec file (bufferSize - buf.length) (by omega) he
        have hjoin : buf ++ file.data = (buf ++ file.data.take want) ++ file.data.drop want := by
          rw [List.append_assoc, List.take_append_drop]
        rw [readLoop, he]
        simp only [Bool.false_eq_true, if_false]
        rw [lineLoop_spec charSigned _ _ _ (Nat.le_refl _), h1]
        rw [ih (fread file (bufferSize - buf.length)).2 _ _ ?_ (splitLines_tail_plain _) ?_ ?_
          fuel (by omega)]
        · rw [h2, hjoin, splitLines_append (file.data.drop want) (buf ++ file.data.take want),
            List.foldl_append]
        · rw [h2, h3, h4]
          rw [he] at hmeasure
          have hflag : (if false = true then 0 else 1 : Nat) = 1 := rfl
          rw [hflag] at hmeasure
          simp only [List.length_drop]
          by_cases hr : file.reads = []
          · have hw := h5 hr
            by_cases hlt : file.data.length < want
            · simp only [hlt, decide_True, if_true]; omega
            · simp only [hlt, decide_False, Bool.false_eq_true, if_false]; omega
          · have : 0 < file.reads.length := List.length_pos.mpr hr
            split <;> omega
        · rw [h2]
          rw [hjoin] at hfit
          exact linesFit_rest _ _ hfit
        · rw [h4, h2]
          intro hlt
          have : file.data.length < want := by simpa using hlt
          exact List.drop_eq_nil_of_le (by omega)

/-! ## Reading a file: claim C6 -/

theorem readLoop_stuck (charSigned : Bool) :
    ∀ (fuel : Nat) (file : FileStream) (buf : List Nat) (m : ObjFile),
      file.eof = false → buf.length = bufferSize → (∀ b ∈ buf, b ≠ 10) →
      readLoop charSigned fuel file buf m = none := by
  intro fuel
  induction fuel with
  | zero => intro file buf m _ _ _; rfl
  | succ fuel ih =>
    intro file buf m he hfull hplain
    have hread : fread file (bufferSize - buf.length) = ([], file) := by
      rw [hfull, Nat.sub_self]; rfl
    rw [readLoop, he]
    simp only [Bool.false_eq_true, if_false]
    rw [hread, List.append_nil, lineLoop_spec charSigned _ _ _ (Nat.le_refl _),
      splitLines_plain buf hplain]
    exact ih file buf m he hfull hplain

theorem readLoop_long_line (charSigned : Bool) (data : List Nat) (m : ObjFile)
    (hlen : data.length = bufferSize) (hplain : ∀ b ∈ data, b ≠ 10) :
    ∀ fuel, readLoop charSigned fuel (FileStream.opened data []) [] m = none := by
  intro fuel
  cases fuel with
  | zero => rfl
  | succ fuel =>
    have hpos : bufferSize ≠ 0 := by decide
    obtain ⟨want, h1, h2, h3, h4, h5⟩ :=
      fread_spec (FileStream.opened data []) (bufferSize - ([] : List Nat).length)
        (by simpa using hpos) rfl
    have hw : want = bufferSize := by simpa using h5 rfl
    have hdata : (FileStream.opened data []).data = data := rfl
    rw [hdata, hw] at h1 h2 h4
    rw [readLoop]
    simp only [FileStream.opened, Bool.false_eq_true, if_false]
    rw [show (fread { data := data, reads := [], eof := false }
        (bufferSize - ([] : List Nat).length)) =
        fread (FileStream.opened data []) (bufferSize - ([] : List Nat).length) from rfl]
    rw [h1, List.nil_append, List.take_of_length_le (by omega),
      lineLoop_spec charSigned _ _ _ (Nat.le_refl _), splitLines_plain data hplain]
    exact readLoop_stuck charSigned fuel _ data m (by rw [h4]; simp; omega) hlen hplain

/-- C6, as the claim is worded, fails: on a stream that is one line of 65536
bytes without terminator, delivered in one read, the buffer is full, holds
no line end, and every later `fread` is asked for 0 bytes and sets no
end-of-file indicator: `objParseFile` does not return, whatever the fuel. -/
theorem objParseFile_chunking_counterexample :
    longLineData.length = 65536 ∧
    ∀ fuel, objParseFile true fuel ObjFile.empty
      (some (FileStream.opened longLineData [])) = none := by
  have hlen : longLineData.length = bufferSize := List.length_replicate _ _
  have hplain : ∀ b ∈ longLineData, b ≠ 10 := by
    intro b hb
    rw [List.eq_of_mem_replicate hb]
    decide
  refine ⟨hlen, fun fuel => ?_⟩
  unfold objParseFile
  simp only []
  rw [readLoop_long_line true longLineData ObjFile.empty hlen hplain fuel]

/-- C6, amended. For every byte stream whose lines, terminated or not, are
all shorter than the 65536 bytes of the buffer, and every way the source
delivers it across reads, `objParseFile` returns (fuel above the number of
bytes plus the number of scheduled reads plus one is enough) and produces
the mesh obtained by dispatching to `objParseLine`, in file order, each
terminated line and then the unterminated last line when it is not empty. -/
theorem objParseFile_chunking (charSigned : Bool) (m : ObjFile) (data reads : List Nat)
    (hfit : linesFit data = true) (fuel : Nat)
    (hfuel : data.length + reads.length + 1 < fuel) :
    objParseFile charSigned fuel m (some (FileStream.opened data reads)) =
      some (true, parseStream charSigned m data) := by
  have hloop := readLoop_spec charSigned (data.length + reads.length + 1)
    (FileStream.opened data reads) [] m (by simp [FileStream.opened])
    (fun b hb => absurd hb (List.not_mem_nil b)) hfit
    (fun h => absurd h (by simp [FileStream.opened])) fuel hfuel
  have htail : (splitLines data).2.length < bufferSize := by
    unfold linesFit at hfit
    simp only [Bool.and_eq_true, decide_eq_true_eq] at hfit
    exact hfit.2
  simp only [FileStream.opened, List.nil_append] at hloop
  unfold objParseFile parseStream
  simp only [FileStream.opened, hloop]
  by_cases ht : (splitLines data).2 = []
  · simp [ht]
  · have hne : (splitLines data).2.length ≠ 0 := fun h => ht (List.length_eq_zero.mp h)
    rw [if_pos hne, if_pos htail, if_neg ht]
    rfl

/-- C6, witness: the five lines of the quadrilateral, delivered as 3 bytes,
then 5 bytes, then the rest. -/
theorem objParseFile_chunking_witness :
    linesFit quadFileData = true ∧ quadFileData.length + [3, 5].length + 1 < 100 ∧
    objParseFile true 100 ObjFile.empty (some (FileStream.opened quadFileData [3, 5])) =
      some (true, parseStream true ObjFile.empty quadFileData) :=
  ⟨by decide, by decide,
    objParseFile_chunking true ObjFile.empty quadFileData [3, 5] (by decide) 100 (by decide)⟩

/-- The example mesh `quadMesh` is the mesh read from its five lines. -/
theorem parseStream_quad : parseStream true ObjFile.empty quadFileData = quadMesh := by
  decide

/-! ## Line dispatcher: claims C11, C12 -/

/-- C11. Dispatching the lines `v 0 0 0`, `v 1 0 0`, `v 1 1 0`, `v 0 1 0`,
`f 1 2 3 4` to `objParseLine` on the empty mesh gives 12 position floats, the
count buffer `[4]` and the index buffer of the four triples `(k, -1, -1)`;
`objTriangulate` then returns the count buffer `[3, 3]` and the index buffer
of the triangles `(0, 1, 2)` and `(0, 2, 3)` with texcoord and normal slots
-1. -/
theorem readLines_quad (charSigned : Bool) :
    (readLines charSigned ObjFile.empty quadLines).v.length = 12 ∧
    (readLines charSigned ObjFile.empty quadLines).fv = [4] ∧
    (readLines charSigned ObjFile.empty quadLines).f =
      [0, -1, -1, 1, -1, -1, 2, -1, -1, 3, -1, -1] ∧
    ∃ r, objTriangulate (readLines charSigned ObjFile.empty quadLines) = some r ∧
      r.fv = [3, 3] ∧
      r.f = [0, -1, -1, 1, -1, -1, 2, -1, -1, 0, -1, -1, 2, -1, -1, 3, -1, -1] := by
  have hq : readLines charSigned ObjFile.empty quadLines = quadMesh := by
    cases charSigned <;> decide
  rw [hq]
  exact ⟨rfl, rfl, rfl, _, rfl, rfl, rfl⟩

theorem starts_two (a b : Nat) (line : List Nat) (ha : a ≠ 0) (hb : b ≠ 0) :
    [a, b] <+: line ↔ charAt line 0 = a ∧ charAt line 1 = b := by
  rcases line with _ | ⟨x, _ | ⟨y, rest⟩⟩
  · simp [charAt]; intro h; exact absurd h.symm ha
  · simp [charAt]; intro _ h; exact absurd h.symm hb
  · simp [charAt, List.cons_prefix_cons, eq_comm]

theorem starts_three (a b c : Nat) (line : List Nat) (ha : a ≠ 0) (hb : b ≠ 0) (hc : c ≠ 0) :
    [a, b, c] <+: line ↔ charAt line 0 = a ∧ charAt line 1 = b ∧ charAt line 2 = c := by
  rcases line with _ | ⟨x, _ | ⟨y, _ | ⟨z, rest⟩⟩⟩
  · simp [charAt]; intro h; exact absurd h.symm ha
  · simp [charAt]; intro _ h; exact absurd h.symm hb
  · simp [charAt]; intro _ _ h; exact absurd h.symm hc
  · simp [charAt, List.cons_prefix_cons, eq_comm]

theorem objParseLine_skip (charSigned : Bool) (m : ObjFile) (line : List Nat)
    (hv : ¬ ascii "v " <+: line) (hvt : ¬ ascii "vt " <+: line)
    (hvn : ¬ ascii "vn " <+: line) (hf : ¬ ascii "f " <+: line) :
    objParseLine charSigned m line = m := by
  have e1 : ascii "v " = [118, 32] := by decide
  have e2 : ascii "vt " = [118, 116, 32] := by decide
  have e3 : ascii "vn " = [118, 110, 32] := by decide
  have e4 : ascii "f " = [102, 32] := by decide
  rw [e1, starts_two _ _ _ (by decide) (by decide)] at hv
  rw [e2, starts_three _ _ _ _ (by decide) (by decide) (by decide)] at hvt
  rw [e3, starts_three _ _ _ _ (by decide) (by decide) (by decide)] at hvn
  rw [e4, starts_two _ _ _ (by decide) (by decide)] at hf
  unfold objParseLine
  rw [if_neg hv, if_neg hvt, if_neg hvn, if_neg hf]

/-- C12. For every mesh and every line that starts with none of `v `, `vt `,
`vn `, `f `, `objParseLine` returns the mesh it was given: the five buffers
(and their capacities) are unchanged; the function has no error result.
This covers the empty line, comment lines and `g`, `o`, `s`, `mtllib`
lines. -/
theorem objParseLine_ignored :
    (∀ (charSigned : Bool) (m : ObjFile) (line : List Nat),
      ¬ ascii "v " <+: line → ¬ ascii "vt " <+: line → ¬ ascii "vn " <+: line →
      ¬ ascii "f " <+: line → objParseLine charSigned m line = m) ∧
    (∀ line ∈ ignoredLines, ∀ (charSigned : Bool) (m : ObjFile),
      objParseLine charSigned m line = m) := by
  refine ⟨objParseLine_skip, fun line hl cs m => ?_⟩
  have hall : ∀ l ∈ ignoredLines, (¬ ascii "v " <+: l) ∧ (¬ ascii "vt " <+: l) ∧
      (¬ ascii "vn " <+: l) ∧ (¬ ascii "f " <+: l) := by decide
  obtain ⟨h1, h2, h3, h4⟩ := hall line hl
  exact objParseLine_skip cs m line h1 h2 h3 h4

/-- C12, witness: a comment line read into the quadrilateral. -/
theorem objParseLine_ignored_witness :
    objParseLine true quadMesh (ascii "# unit square") = quadMesh :=
  objParseLine_ignored.1 true quadMesh (ascii "# unit square") (by decide) (by decide)
    (by decide) (by decide)

/-! ## Line dispatcher: claim C13 -/

theorem objParseLine_position (charSigned : Bool) (m : ObjFile) (line : List Nat)
    (h : ascii "v " <+: line) :
    (objParseLine charSigned m line).v =
      m.v ++ [(parseFloat (line.drop 2)).1, (parseFloat (parseFloat (line.drop 2)).2).1,
        (parseFloat (parseFloat (parseFloat (line.drop 2)).2).2).1] ∧
    (objParseLine charSigned m line).vt = m.vt ∧ (objParseLine charSigned m line).vn = m.vn ∧
    (objParseLine charSigned m line).fv = m.fv ∧ (objParseLine charSigned m line).f = m.f := by
  have e1 : ascii "v " = [118, 32] := by decide
  rw [e1, starts_two _ _ _ (by decide) (by decide)] at h
  unfold objParseLine
  rw [if_pos h]
  exact ⟨rfl, rfl, rfl, rfl, rfl⟩

theorem objParseLine_texcoord (charSigned : Bool) (m : ObjFile) (line : List Nat)
    (h : ascii "vt " <+: line) :
    (objParseLine charSigned m line).vt =
      m.vt ++ [(parseFloat (line.drop 3)).1, (parseFloat (parseFloat (line.drop 3)).2).1,
        (parseFloat (parseFloat (parseFloat (line.drop 3)).2).2).1] ∧
    (objParseLine charSigned m line).v = m.v ∧ (objParseLine charSigned m line).vn = m.vn ∧
    (objParseLine charSigned m line).fv = m.fv ∧ (objParseLine charSigned m line).f = m.f := by
  have e1 : ascii "vt " = [118, 116, 32] := by decide
  rw [e1, starts_three _ _ _ _ (by decide) (by decide) (by decide)] at h
  unfold objParseLine
  rw [if_neg (by rw [h.2.1]; simp), if_pos h]
  exact ⟨rfl, rfl, rfl, rfl, rfl⟩

theorem objParseLine_normal (charSigned : Bool) (m : ObjFile) (line : List Nat)
    (h : ascii "vn " <+: line) :
    (objParseLine charSigned m line).vn =
      m.vn ++ [(parseFloat (line.drop 3)).1, (parseFloat (parseFloat (line.drop 3)).2).1,
        (parseFloat (parseFloat (parseFloat (line.drop 3)).2).2).1] ∧
    (objParseLine charSigned m line).v = m.v ∧ (objParseLine charSigned m line).vt = m.vt ∧
    (objParseLine charSigned m line).fv = m.fv ∧ (objParseLine charSigned m line).f = m.f := by
  have e1 : ascii "vn " = [118, 110, 32] := by decide
  rw [e1, starts_three _ _ _ _ (by decide) (by decide) (by decide)] at h
  unfold objParseLine
  rw [if_neg (by rw [h.2.1]; simp), if_neg (by rw [h.2.1]; simp), if_pos h]
  exact ⟨rfl, rfl, rfl, rfl, rfl⟩

/-- One call of `objParseLine` keeps the lengths of the three float buffers
modulo 3. -/
theorem objParseLine_mod_three (charSigned : Bool) (m : ObjFile) (line : List Nat) :
    (objParseLine charSigned m line).v.length % 3 = m.v.length % 3 ∧
    (objParseLine charSigned m line).vt.length % 3 = m.vt.length % 3 ∧
    (objParseLine charSigned m line).vn.length % 3 = m.vn.length % 3 := by
  by_cases hv : ascii "v " <+: line
  · obtain ⟨h1, h2, h3, _⟩ := objParseLine_position charSigned m line hv
    rw [h1, h2, h3]; simp
  by_cases hvt : ascii "vt " <+: line
  · obtain ⟨h1, h2, h3, _⟩ := objParseLine_texcoord charSigned m line hvt
    rw [h1, h2, h3]; simp
  by_cases hvn : ascii "vn " <+: line
  · obtain ⟨h1, h2, h3, _⟩ := objParseLine_normal charSigned m line hvn
    rw [h1, h2, h3]; simp
  by_cases hf : ascii "f " <+: line
  · have e4 : ascii "f " = [102, 32] := by decide
    rw [e4, starts_two _ _ _ (by decide) (by decide)] at hf
    obtain ⟨_, _, h3, h4, h5⟩ := objParseLine_face charSigned m line hf
    rw [h3, h4, h5]; exact ⟨rfl, rfl, rfl⟩
  · rw [objParseLine_skip charSigned m line hv hvt hvn hf]; exact ⟨rfl, rfl, rfl⟩

theorem readLines_mod_three (charSigned : Bool) (lines : List (List Nat)) :
    ∀ m : ObjFile,
      (readLines charSigned m lines).v.length % 3 = m.v.length % 3 ∧
      (readLines charSigned m lines).vt.length % 3 = m.vt.length % 3 ∧
      (readLines charSigned m lines).vn.length % 3 = m.vn.length % 3 := by
  induction lines with
  | nil => intro m; exact ⟨rfl, rfl, rfl⟩
  | cons line rest ih =>
    intro m
    obtain ⟨h1, h2, h3⟩ := objParseLine_mod_three charSigned m line
    obtain ⟨g1, g2, g3⟩ := ih (objParseLine charSigned m line)
    simp only [readLines, List.foldl_cons] at *
    exact ⟨g1.trans h1, g2.trans h2, g3.trans h3⟩

/-- C13. Starting from the empty mesh, after any finite sequence of calls of
`objParseLine` the lengths of the position, texcoord and normal buffers are
multiples of 3; and on every mesh a line that starts with `v `, `vt ` or
`vn ` appends exactly three floats to its own buffer, whatever follows the
prefix, and leaves the other buffers as they were. -/
theorem objParseLine_triples :
    (∀ (charSigned : Bool) (lines : List (List Nat)),
      (readLines charSigned ObjFile.empty lines).v.length % 3 = 0 ∧
      (readLines charSigned ObjFile.empty lines).vt.length % 3 = 0 ∧
      (readLines charSigned ObjFile.empty lines).vn.length % 3 = 0) ∧
    (∀ (charSigned : Bool) (m : ObjFile) (line : List Nat), ascii "v " <+: line →
      ∃ x y z, (objParseLine charSigned m line).v = m.v ++ [x, y, z] ∧
        (objParseLine charSigned m line).vt = m.vt ∧
        (objParseLine charSigned m line).vn = m.vn ∧
        (objParseLine charSigned m line).fv = m.fv ∧
        (objParseLine charSigned m line).f = m.f) ∧
    (∀ (charSigned : Bool) (m : ObjFile) (line : List Nat), ascii "vt " <+: line →
      ∃ x y z, (objParseLine charSigned m line).vt = m.vt ++ [x, y, z] ∧
        (objParseLine charSigned m line).v = m.v ∧
        (objParseLine charSigned m line).vn = m.vn ∧
        (objParseLine charSigned m line).fv = m.fv ∧
        (objParseLine charSigned m line).f = m.f) ∧
    (∀ (charSigned : Bool) (m : ObjFile) (line : List Nat), ascii "vn " <+: line →
      ∃ x y z, (objParseLine charSigned m line).vn = m.vn ++ [x, y, z] ∧
        (objParseLine charSigned m line).v = m.v ∧
        (objParseLine charSigned m line).vt = m.vt ∧
        (objParseLine charSigned m line).fv = m.fv ∧
        (objParseLine charSigned m line).f = m.f) := by
  refine ⟨fun cs lines => ?_, fun cs m line h => ?_, fun cs m line h => ?_,
    fun cs m line h => ?_⟩
  · exact readLines_mod_three cs lines ObjFile.empty
  · exact ⟨_, _, _, objParseLine_position cs m line h⟩
  · exact ⟨_, _, _, objParseLine_texcoord cs m line h⟩
  · exact ⟨_, _, _, objParseLine_normal cs m line h⟩

/-- C13, witness: a position line with text after its numbers, read into the
quadrilateral. -/
theorem objParseLine_triples_witness :
    ∃ x y z, (objParseLine true quadMesh (ascii "v 1 2 x # 3")).v = quadMesh.v ++ [x, y, z] ∧
      (objParseLine true quadMesh (ascii "v 1 2 x # 3")).vt = quadMesh.vt ∧
      (objParseLine true quadMesh (ascii "v 1 2 x # 3")).vn = quadMesh.vn ∧
      (objParseLine true quadMesh (ascii "v 1 2 x # 3")).fv = quadMesh.fv ∧
      (objParseLine true quadMesh (ascii "v 1 2 x # 3")).f = quadMesh.f :=
  objParseLine_triples.2.1 true quadMesh (ascii "v 1 2 x # 3") (by decide)

/-! ## Triangulation after validation: claim C14 -/

/-- The three checks of `objValidate`, one by one. -/
theorem objValidate_parts (m : ObjFile) :
    objValidate m = true ↔
      (∀ c ∈ m.fv, 3 ≤ c) ∧ vertexTotal m.fv * 3 = m.f.length ∧
      validateIndices (m.v.length / 3) (m.vt.length / 3) (m.vn.length / 3) m.f = true := by
  unfold objValidate
  by_cases hall : ∀ c ∈ m.fv, 3 ≤ c
  · rw [validateCounts_some m.fv hall 0]
    simp only [Nat.zero_add]
    by_cases hlen : vertexTotal m.fv * 3 = m.f.length
    · rw [if_neg (by simpa using hlen)]
      exact ⟨fun h => ⟨hall, hlen, h⟩, fun h => h.2.2⟩
    · rw [if_pos hlen]
      exact ⟨fun h => absurd h (by simp), fun h => absurd h.2.1 hlen⟩
  · rw [validateCounts_none m.fv hall 0]
    exact ⟨fun h => absurd h (by simp), fun h => absurd h.1 hall⟩

/-- C14. On every mesh accepted by `objValidate`, `objTriangulate` runs to
its end: the counting loop meets no count below 3, every read of the old
index array and every write to the new one is in bounds, the copy loop ends
with `read` equal to the old length and `write` equal to
`total_indices * 3`, and a mesh is returned. -/
theorem objTriangulate_safe (m : ObjFile) (h : objValidate m = true) :
    ∃ (total_indices : Nat) (f : List Int),
      triangulateCount m.fv 0 = some total_indices ∧
      triangulateFaces m.f m.fv 0 (List.replicate (total_indices * 3) 0) 0 =
        some (f, m.f.length, total_indices * 3) ∧
      ∃ r, objTriangulate m = some r := by
  obtain ⟨hall, hlen, _⟩ := (objValidate_parts m).mp h
  have hl : m.f.length = 3 * vertexTotal m.fv := by omega
  have hcount := triangulateCount_spec m.fv hall 0
  have hfaces := triangulateFaces_spec m.f m.fv 0 [] 0 0 hall (by omega) rfl
  simp only [Nat.zero_add, Nat.add_zero, List.nil_append, List.replicate_zero,
    List.append_nil, List.drop_zero] at hcount hfaces
  have e1 : 3 * triangleTotal m.fv * 3 = 9 * triangleTotal m.fv := by ring
  refine ⟨3 * triangleTotal m.fv, fanFaces m.fv m.f, hcount, ?_,
    _, objTriangulate_spec m hall hl⟩
  rw [e1, hfaces, ← hl]

/-- C14, witness: the triangulation of the validated triangle mesh. -/
theorem objTriangulate_safe_witness :
    objValidate (readLines true ObjFile.empty triangleLines) = true ∧
    ∃ (total_indices : Nat) (f : List Int),
      triangulateCount (readLines true ObjFile.empty triangleLines).fv 0 =
        some total_indices ∧
      triangulateFaces (readLines true ObjFile.empty triangleLines).f
        (readLines true ObjFile.empty triangleLines).fv 0
        (List.replicate (total_indices * 3) 0) 0 =
        some (f, (readLines true ObjFile.empty triangleLines).f.length, total_indices * 3) ∧
      ∃ r, objTriangulate (readLines true ObjFile.empty triangleLines) = some r :=
  ⟨by decide, objTriangulate_safe (readLines true ObjFile.empty triangleLines) (by decide)⟩

theorem validateIndices_append (v vt vn : Nat) (b : List Int)
    (hb : validateIndices v vt vn b = true) :
    ∀ (n : Nat) (a : List Int), a.length ≤ n → validateIndices v vt vn a = true →
      validateIndices v vt vn (a ++ b) = true := by
  intro n
  induction n with
  | zero =>
    intro a hlen _
    have : a = [] := List.length_eq_zero.mp (by omega)
    subst this
    exact hb
  | succ n ih =>
    intro a hlen ha
    rcases a with _ | ⟨x, _ | ⟨y, _ | ⟨z, rest⟩⟩⟩
    · exact hb
    · simp [validateIndices] at ha
    · simp [validateIndices] at ha
    · rw [validateIndices] at ha
      simp only [List.cons_append]
      rw [validateIndices]
      split at ha
      · exact absurd ha (by simp)
      · rw [if_neg (by assumption)]
        split at ha
        · exact absurd ha (by simp)
        · rw [if_neg (by assumption)]
          split at ha
          · exact absurd ha (by simp)
          · rw [if_neg (by assumption)]
            split at ha
            · exact absurd ha (by simp)
            · rw [if_neg (by assumption)]
              exact ih rest (by simp at hlen; omega) ha

theorem validateIndices_drop (v vt vn : Nat) :
    ∀ (k : Nat) (f : List Int), validateIndices v vt vn f = true →
      validateIndices v vt vn (f.drop (3 * k)) = true := by
  intro k
  induction k with
  | zero => intro f h; simpa using h
  | succ k ih =>
    intro f h
    rcases f with _ | ⟨x, _ | ⟨y, _ | ⟨z, rest⟩⟩⟩
    · simpa using h
    · simp [validateIndices] at h
    · simp [validateIndices] at h
    · have hrest : validateIndices v vt vn rest = true := by
        rw [validateIndices] at h
        split at h
        · exact absurd h (by simp)
        · split at h
          · exact absurd h (by simp)
          · split at h
            · exact absurd h (by simp)
            · split at h
              · exact absurd h (by simp)
              · exact h
      have e : 3 * (k + 1) = 3 * k + 1 + 1 + 1 := by ring
      rw [e]
      simp only [List.drop_succ_cons]
      exact ih rest hrest

theorem validateIndices_take (v vt vn : Nat) :
    ∀ (k : Nat) (f : List Int), validateIndices v vt vn f = true →
      validateIndices v vt vn (f.take (3 * k)) = true := by
  intro k
  induction k with
  | zero => intro f _; simp [validateIndices]
  | succ k ih =>
    intro f h
    rcases f with _ | ⟨x, _ | ⟨y, _ | ⟨z, rest⟩⟩⟩
    · simpa using h
    · simp [validateIndices] at h
    · simp [validateIndices] at h
    · have e : 3 * (k + 1) = 3 * k + 1 + 1 + 1 := by ring
      rw [e]
      simp only [List.take_succ_cons]
      rw [validateIndices] at h ⊢
      split at h
      · exact absurd h (by simp)
      · rw [if_neg (by assumption)]
        split at h
        · exact absurd h (by simp)
        · rw [if_neg (by assumption)]
          split at h
          · exact absurd h (by simp)
          · rw [if_neg (by assumption)]
            split at h
            · exact absurd h (by simp)
            · rw [if_neg (by assumption)]
              exact ih rest h

/-! ## Triangulation after validation: claim C15 -/

theorem validateIndices_join (v vt vn : Nat) (a b : List Int)
    (ha : validateIndices v vt vn a = true) (hb : validateIndices v vt vn b = true) :
    validateIndices v vt vn (a ++ b) = true :=
  validateIndices_append v vt vn b hb a.length a (Nat.le_refl _) ha

theorem validateIndices_faceVertex (v vt vn : Nat) (face : List Int) (j : Nat)
    (h : validateIndices v vt vn face = true) :
    validateIndices v vt vn (faceVertex face j) = true := by
  have := validateIndices_take v vt vn 1 _ (validateIndices_drop v vt vn j face h)
  simpa [faceVertex] using this

theorem validateIndices_fanOfFace (v vt vn : Nat) (face : List Int)
    (h : validateIndices v vt vn face = true) (n : Nat) :
    validateIndices v vt vn (fanOfFace n face) = true := by
  unfold fanOfFace
  induction (List.range (n - 2)) with
  | nil => simp [validateIndices]
  | cons i rest ih =>
    rw [List.flatMap_cons]
    refine validateIndices_join v vt vn _ _ ?_ ih
    unfold fanTriangle
    exact validateIndices_join v vt vn _ _
      (validateIndices_join v vt vn _ _ (validateIndices_faceVertex v vt vn face 0 h)
        (validateIndices_faceVertex v vt vn face (i + 1) h))
      (validateIndices_faceVertex v vt vn face (i + 2) h)

theorem validateIndices_fanFaces (v vt vn : Nat) (counts : List Int) :
    ∀ f : List Int, validateIndices v vt vn f = true →
      validateIndices v vt vn (fanFaces counts f) = true := by
  induction counts with
  | nil => intro f _; simp [fanFaces, validateIndices]
  | cons c rest ih =>
    intro f h
    rw [fanFaces]
    exact validateIndices_join v vt vn _ _
      (validateIndices_fanOfFace v vt vn _ (validateIndices_take v vt vn _ f h) _)
      (ih _ (validateIndices_drop v vt vn _ f h))

/-- C15. `objTriangulate` preserves validity: on every mesh accepted by
`objValidate` it returns a mesh, and `objValidate` accepts that mesh. -/
theorem objTriangulate_valid (m : ObjFile) (h : objValidate m = true) :
    ∃ r, objTriangulate m = some r ∧ objValidate r = true := by
  obtain ⟨hall, hlen, hidx⟩ := (objValidate_parts m).mp h
  have hl : m.f.length = 3 * vertexTotal m.fv := by omega
  refine ⟨_, objTriangulate_spec m hall hl, ?_⟩
  rw [objValidate_parts]
  refine ⟨?_, ?_, ?_⟩
  · intro c hc
    rw [(List.mem_replicate.mp hc).2]
  · simp only []
    rw [vertexTotal_replicate, fanFaces_length m.fv hall m.f (by omega)]
    ring
  · exact validateIndices_fanFaces _ _ _ m.fv m.f hidx

/-- C15, witness: the quadrilateral is valid and so is its triangulation. -/
theorem objTriangulate_valid_witness :
    objValidate quadMesh = true ∧
    ∃ r, objTriangulate quadMesh = some r ∧ objValidate r = true :=
  ⟨by decide, objTriangulate_valid quadMesh (by decide)⟩

/-! ## Capacities: claim C16 -/

/-- C16, the failing run. The triangle mesh read from four lines passes
`objValidate`; `objTriangulate` leaves it with one triangle and a count
buffer of capacity 1, all buffers within capacity; the next face line finds
the count buffer full, `growArray` turns the capacity 1 into `1 + 1 / 2 = 1`,
and the count is stored at index 1: size 2 above capacity 1. -/
theorem objParseLine_overflow :
    objValidate (readLines true ObjFile.empty triangleLines) = true ∧
    ∃ r, objTriangulate (readLines true ObjFile.empty triangleLines) = some r ∧
      withinCapacity r = true ∧ r.fv.length = 1 ∧ r.fv_cap = 1 ∧
      growArray r.fv_cap = 1 ∧
      (objParseLine true r (ascii "f 1 2 3")).fv.length = 2 ∧
      (objParseLine true r (ascii "f 1 2 3")).fv_cap = 1 ∧
      withinCapacity (objParseLine true r (ascii "f 1 2 3")) = false := by
  refine ⟨by decide, _, rfl, ?_⟩
  decide

theorem ensureRoom_fits (size n cap : Nat) (hn : n ≤ 16) (hsize : size ≤ cap)
    (hcap : grownCapacity cap) :
    size + n ≤ ensureRoom size n cap ∧ grownCapacity (ensureRoom size n cap) := by
  unfold ensureRoom growArray grownCapacity at *
  split
  · split
    · omega
    · omega
  · omega

theorem faceLoop_capacity (v vt vn : Nat) :
    ∀ (fuel : Nat) (s : List Nat) (result : ObjFile) (fv : Nat),
      result.f.length ≤ result.f_cap → grownCapacity result.f_cap →
      (faceLoop v vt vn fuel s result fv).1.f.length ≤
          (faceLoop v vt vn fuel s result fv).1.f_cap ∧
        grownCapacity (faceLoop v vt vn fuel s result fv).1.f_cap := by
  intro fuel
  induction fuel with
  | zero => intro s result fv h1 h2; exact ⟨h1, h2⟩
  | succ fuel ih =>
    intro s result fv h1 h2
    unfold faceLoop
    split
    · exact ⟨h1, h2⟩
    · simp only []
      split
      · exact ⟨h1, h2⟩
      · have hroom := ensureRoom_fits result.f.length 3 result.f_cap (by decide) h1 h2
        exact ih _ _ _ (by
          simp only [List.length_append, List.length_cons, List.length_nil]; omega) hroom.2

theorem objParseLine_invariant (charSigned : Bool) (m : ObjFile) (line : List Nat)
    (h : ParsedInvariant m) : ParsedInvariant (objParseLine charSigned m line) := by
  obtain ⟨hv, hvt, hvn, hfv, hf⟩ := h
  unfold objParseLine
  split
  · have := ensureRoom_fits m.v.length 3 m.v_cap (by decide) hv.1 hv.2
    exact ⟨⟨by simp only [List.length_append, List.length_cons, List.length_nil]; omega,
      this.2⟩, hvt, hvn, hfv, hf⟩
  · split
    · have := ensureRoom_fits m.vt.length 3 m.vt_cap (by decide) hvt.1 hvt.2
      exact ⟨hv, ⟨by simp only [List.length_append, List.length_cons, List.length_nil]; omega,
        this.2⟩, hvn, hfv, hf⟩
    · split
      · have := ensureRoom_fits m.vn.length 3 m.vn_cap (by decide) hvn.1 hvn.2
        exact ⟨hv, hvt, ⟨by simp only [List.length_append, List.length_cons,
          List.length_nil]; omega, this.2⟩, hfv, hf⟩
      · split
        · obtain ⟨_, _, e3, e4, e5, e6, e7, e8, e9, e10⟩ :=
            faceLoop_eq (m.v.length / 3) (m.vt.length / 3) (m.vn.length / 3)
              ((line.drop 2).length + 1) (line.drop 2) m 0
          have hcap := faceLoop_capacity (m.v.length / 3) (m.vt.length / 3) (m.vn.length / 3)
            ((line.drop 2).length + 1) (line.drop 2) m 0 hf.1 hf.2
          have hroom := ensureRoom_fits m.fv.length 1 m.fv_cap (by decide) hfv.1 hfv.2
          simp only []
          rw [e3, e4]
          refine ⟨?_, ?_, ?_, ⟨?_, hroom.2⟩, hcap⟩
          · rw [e5, e8]; exact hv
          · rw [e6, e9]; exact hvt
          · rw [e7, e10]; exact hvn
          · simp only [List.length_append, List.length_cons, List.length_nil]; omega
        · exact ⟨hv, hvt, hvn, hfv, hf⟩

/-- Meshes built from the empty mesh by `objParseLine` alone stay within
capacity: the overflow of `objParseLine_overflow` needs `objTriangulate`. -/
theorem readLines_withinCapacity (charSigned : Bool) (lines : List (List Nat)) :
    withinCapacity (readLines charSigned ObjFile.empty lines) = true := by
  have key : ∀ (ls : List (List Nat)) (m : ObjFile), ParsedInvariant m →
      ParsedInvariant (readLines charSigned m ls) := by
    intro ls
    induction ls with
    | nil => intro m h; exact h
    | cons l rest ih =>
      intro m h
      simp only [readLines, List.foldl_cons]
      exact ih _ (objParseLine_invariant charSigned m l h)
  have h0 : ParsedInvariant ObjFile.empty := by
    unfold ParsedInvariant grownCapacity ObjFile.empty
    simp
  obtain ⟨hv, hvt, hvn, hfv, hf⟩ := key lines ObjFile.empty h0
  unfold withinCapacity
  simp [hv.1, hvt.1, hvn.1, hfv.1, hf.1]

/-! ## Integer lexer: claim C17 -/

theorem skipBlanks_eq_dropWhile (s : List Nat) : skipBlanks s = s.dropWhile isBlank := by
  induction s with
  | nil => rfl
  | cons c s ih =>
    by_cases hc : c = 32 ∨ c = 9
    · rw [skipBlanks, if_pos hc, ih, List.dropWhile_cons_of_pos (by simpa [isBlank] using hc)]
    · rw [skipBlanks, if_neg hc, List.dropWhile_cons_of_neg (by simpa [isBlank] using hc)]

theorem parseIntDigits_eq (s : List Nat) :
    ∀ r, parseIntDigits s r =
      ((s.takeWhile isDigit).foldl (fun r c => (r * 10 + (c - 48)) % 4294967296) r,
        s.dropWhile isDigit) := by
  induction s with
  | nil => intro r; rfl
  | cons c s ih =>
    intro r
    by_cases hc : isDigit c = true
    · rw [parseIntDigits, if_pos hc, ih, List.takeWhile_cons_of_pos hc,
        List.dropWhile_cons_of_pos hc]
      rfl
    · rw [parseIntDigits, if_neg hc, List.takeWhile_cons_of_neg hc,
        List.dropWhile_cons_of_neg hc]
      rfl

theorem deref_dropWhile_digit (s : List Nat) : isDigit (deref (s.dropWhile isDigit)) = false := by
  induction s with
  | nil => rfl
  | cons c s ih =>
    by_cases hc : isDigit c = true
    · rw [List.dropWhile_cons_of_pos hc]; exact ih
    · rw [List.dropWhile_cons_of_neg hc]
      simpa [deref] using hc

theorem all_takeWhile_digit (s : List Nat) : (s.takeWhile isDigit).all isDigit = true := by
  induction s with
  | nil => rfl
  | cons c s ih =>
    by_cases hc : isDigit c = true
    · rw [List.takeWhile_cons_of_pos hc]
      simp only [List.all_cons, Bool.and_eq_true]
      exact ⟨hc, ih⟩
    · rw [List.takeWhile_cons_of_neg hc]; rfl

theorem wrapInt32_neg_wrap (n : Nat) :
    wrapInt32 (-(wrapInt32 (n : Int))) = wrapInt32 (-(n : Int)) := by
  unfold wrapInt32
  omega

/-- C17. On every input `parseInt` skips the leading spaces and tabs; what is
left reads as an optional sign (one `+` or `-`, absent only when the next
byte is neither), the maximal run of ASCII digits, and a rest that does not
start with a digit.  The cursor returned is that rest, and the value is the
decimal value of the digits modulo `2^32`, negated when the sign is `-`,
reduced to a signed 32-bit integer; it is 0 when there is no digit. -/
theorem parseInt_reads (s : List Nat) :
    ∃ sign digits rest : List Nat,
      s.dropWhile isBlank = sign ++ digits ++ rest ∧
      (sign = [] ∨ sign = [43] ∨ sign = [45]) ∧
      (sign = [] → deref (digits ++ rest) ≠ 43 ∧ deref (digits ++ rest) ≠ 45) ∧
      digits.all isDigit = true ∧ isDigit (deref rest) = false ∧
      parseInt s =
        (wrapInt32 (if sign = [45] then -((decimalValue digits % 4294967296 : Nat) : Int)
          else ((decimalValue digits % 4294967296 : Nat) : Int)), rest) ∧
      (digits = [] → (parseInt s).1 = 0) := by
  have hfold : ∀ l : List Nat,
      l.foldl (fun r c => (r * 10 + (c - 48)) % 4294967296) 0 =
        decimalValue l % 4294967296 := by
    intro l
    have := foldl_mod l 0
    simpa [decimalValue] using this
  have hzero : ∀ (neg : Bool),
      (if neg = true then wrapInt32 (-(wrapInt32 ((0 : Nat) : Int)))
        else wrapInt32 ((0 : Nat) : Int)) = 0 := by
    intro neg; cases neg <;> decide
  have hsplit : ∀ l : List Nat, l = l.takeWhile isDigit ++ l.dropWhile isDigit :=
    fun l => (List.takeWhile_append_dropWhile isDigit l).symm
  have hparse : parseInt s =
      (if decide (deref (s.dropWhile isBlank) = 45) = true then
          wrapInt32 (-(wrapInt32 ((decimalValue
            ((skipSign (s.dropWhile isBlank)).takeWhile isDigit) % 4294967296 : Nat) : Int)))
        else wrapInt32 ((decimalValue
            ((skipSign (s.dropWhile isBlank)).takeWhile isDigit) % 4294967296 : Nat) : Int),
        (skipSign (s.dropWhile isBlank)).dropWhile isDigit) := by
    unfold parseInt
    simp only [skipBlanks_eq_dropWhile, parseIntDigits_eq, hfold]
  have hlt : decimalValue ((skipSign (s.dropWhile isBlank)).takeWhile isDigit) % 4294967296 <
      4294967296 := Nat.mod_lt _ (by decide)
  cases hs : s.dropWhile isBlank with
  | nil =>
    refine ⟨[], [], [], rfl, Or.inl rfl, fun _ => ⟨by decide, by decide⟩, rfl, rfl, ?_, ?_⟩
    · rw [hparse, hs]; rfl
    · intro _; rw [hparse, hs]; rfl
  | cons c tl =>
    rw [hs] at hparse hlt
    by_cases h45 : c = 45
    · subst h45
      have hsk : skipSign (45 :: tl) = tl := rfl
      rw [hsk] at hparse hlt
      refine ⟨[45], tl.takeWhile isDigit, tl.dropWhile isDigit, ?_, Or.inr (Or.inr rfl),
        fun h => absurd h (by simp), all_takeWhile_digit tl, deref_dropWhile_digit tl, ?_, ?_⟩
      · rw [List.append_assoc, ← hsplit tl]; rfl
      · rw [hparse]
        simp only [deref, List.headD_cons, decide_True, if_true]
        rw [wrapInt32_neg_wrap]
      · intro hd
        rw [hparse, hd]; rfl
    · by_cases h43 : c = 43
      · subst h43
        have hsk : skipSign (43 :: tl) = tl := rfl
        rw [hsk] at hparse hlt
        refine ⟨[43], tl.takeWhile isDigit, tl.dropWhile isDigit, ?_, Or.inr (Or.inl rfl),
          fun h => absurd h (by simp), all_takeWhile_digit tl, deref_dropWhile_digit tl, ?_, ?_⟩
        · rw [List.append_assoc, ← hsplit tl]; rfl
        · rw [hparse]
          simp [deref]
        · intro hd
          rw [hparse, hd]; rfl
      · have hsk : skipSign (c :: tl) = c :: tl := by
          unfold skipSign
          rw [if_neg (by simp [deref, h45, h43])]
        rw [hsk] at hparse hlt
        refine ⟨[], (c :: tl).takeWhile isDigit, (c :: tl).dropWhile isDigit, ?_, Or.inl rfl,
          fun _ => ?_, all_takeWhile_digit _, deref_dropWhile_digit _, ?_, ?_⟩
        · rw [List.nil_append, ← hsplit (c :: tl)]
        · rw [← hsplit (c :: tl)]
          exact ⟨by simpa [deref] using h43, by simpa [deref] using h45⟩
        · rw [hparse]
          simp [deref, h45]
        · intro hd
          rw [hparse, hd]
          simp [deref, h45, decimalValue]
          decide

/-! ## Face token reader: claim C18 -/

theorem parseFace_shape (tok : FaceToken) (lead rest : List Nat)
    (hlead : lead.all isBlank = true) (hwf : tok.shaped = true)
    (hdigit : isDigit (deref rest) = false) (hslash : deref rest ≠ 47) :
    parseFace (lead ++ (tok.bytes ++ rest)) 0 0 = (rest, tok.raw) := by
  have h47 : ∀ l : List Nat, isDigit (deref (47 :: l)) = false := fun _ => rfl
  cases tok with
  | position a =>
    simp only [FaceToken.shaped] at hwf
    have hh := index_head a rest hwf
    have ha := parseInt_index a rest hwf hdigit
    unfold parseFace
    simp only [FaceToken.bytes]
    rw [skipBlanks_lead _ _ hlead, skipBlanks_stop _ hh.1, ha]
    simp only []
    rw [if_pos hslash]
    rfl
  | texcoord a b =>
    simp only [FaceToken.shaped, Bool.and_eq_true] at hwf
    have hh := index_head a (47 :: (b.bytes ++ rest)) hwf.1
    have ha := parseInt_index a (47 :: (b.bytes ++ rest)) hwf.1 (h47 _)
    have hhb := index_head b rest hwf.2
    have hb := parseInt_index b rest hwf.2 hdigit
    unfold parseFace
    simp only [FaceToken.bytes, List.append_assoc, List.cons_append]
    rw [skipBlanks_lead _ _ hlead, skipBlanks_stop _ hh.1, ha]
    simp only [List.drop_succ_cons, List.drop_zero]
    rw [if_neg (by simp [deref]), if_pos hhb.2.1, hb]
    simp only []
    rw [if_pos hslash]
    rfl
  | normal a c =>
    simp only [FaceToken.shaped, Bool.and_eq_true] at hwf
    have hh := index_head a (47 :: 47 :: (c.bytes ++ rest)) hwf.1
    have ha := parseInt_index a (47 :: 47 :: (c.bytes ++ rest)) hwf.1 (h47 _)
    have hc := parseInt_index c rest hwf.2 hdigit
    unfold parseFace
    simp only [FaceToken.bytes, List.append_assoc, List.cons_append]
    rw [skipBlanks_lead _ _ hlead, skipBlanks_stop _ hh.1, ha]
    simp only [List.drop_succ_cons, List.drop_zero]
    rw [if_neg (by simp [deref]), if_neg (by simp [deref])]
    rw [if_neg (by simp [deref])]
    simp only [List.drop_succ_cons, List.drop_zero]
    rw [hc]
    rfl
  | full a b c =>
    simp only [FaceToken.shaped, Bool.and_eq_true] at hwf
    have hh := index_head a (47 :: (b.bytes ++ 47 :: (c.bytes ++ rest))) hwf.1.1
    have ha := parseInt_index a (47 :: (b.bytes ++ 47 :: (c.bytes ++ rest))) hwf.1.1 (h47 _)
    have hhb := index_head b (47 :: (c.bytes ++ rest)) hwf.1.2
    have hb := parseInt_index b (47 :: (c.bytes ++ rest)) hwf.1.2 (h47 _)
    have hc := parseInt_index c rest hwf.2 hdigit
    unfold parseFace
    simp only [FaceToken.bytes, List.append_assoc, List.cons_append]
    rw [skipBlanks_lead _ _ hlead, skipBlanks_stop _ hh.1, ha]
    simp only [List.drop_succ_cons, List.drop_zero]
    rw [if_neg (by simp [deref]), if_pos hhb.2.1, hb]
    simp only []
    rw [if_neg (by simp [deref])]
    simp only [List.drop_succ_cons, List.drop_zero]
    rw [hc]
    rfl

theorem indexText_value (a : IndexText) (h : decimalValue a.digits < 2147483648) :
    a.value = if a.sign = [45] then -(decimalValue a.digits : Int)
      else (decimalValue a.digits : Int) := by
  unfold IndexText.value signedValue wrapInt32
  have hm : decimalValue a.digits % 4294967296 = decimalValue a.digits :=
    Nat.mod_eq_of_lt (by omega)
  rw [hm]
  by_cases hs : a.sign = [45]
  · simp only [hs, beq_self_eq_true, if_true]
    omega
  · have : (a.sign == [45]) = false := by simpa using hs
    simp only [this, hs, if_false, Bool.false_eq_true]
    omega

/-- C18. `parseFace`, called with `vti = vni = 0` on a token that is
delimited (leading blanks are skipped; what follows starts with neither a
digit nor a slash), returns the cursor just past the token and: for `a`,
`vi = a` and `vti = vni = 0`; for `a/b`, `vi = a`, `vti = b`, `vni = 0`; for
`a//c`, `vi = a`, `vti = 0`, `vni = c`; for `a/b/c`, `vi = a`, `vti = b`,
`vni = c`.  Here the value of an index is what `parseInt` reads, the signed
decimal value whenever it is below `2^31`.  `objParseLine` stores the raw
triples of a face line through `fixupIndex`, which turns 0 into -1. -/
theorem parseFace_shapes :
    (∀ (lead rest : List Nat) (a : IndexText), lead.all isBlank = true →
      isDigit (deref rest) = false → deref rest ≠ 47 → a.wellFormed = true →
      parseFace (lead ++ (a.bytes ++ rest)) 0 0 = (rest, a.value, 0, 0)) ∧
    (∀ (lead rest : List Nat) (a b : IndexText), lead.all isBlank = true →
      isDigit (deref rest) = false → deref rest ≠ 47 →
      a.wellFormed = true → b.wellFormed = true →
      parseFace (lead ++ ((a.bytes ++ 47 :: b.bytes) ++ rest)) 0 0 =
        (rest, a.value, b.value, 0)) ∧
    (∀ (lead rest : List Nat) (a c : IndexText), lead.all isBlank = true →
      isDigit (deref rest) = false → deref rest ≠ 47 →
      a.wellFormed = true → c.wellFormed = true →
      parseFace (lead ++ ((a.bytes ++ 47 :: 47 :: c.bytes) ++ rest)) 0 0 =
        (rest, a.value, 0, c.value)) ∧
    (∀ (lead rest : List Nat) (a b c : IndexText), lead.all isBlank = true →
      isDigit (deref rest) = false → deref rest ≠ 47 →
      a.wellFormed = true → b.wellFormed = true → c.wellFormed = true →
      parseFace (lead ++ ((a.bytes ++ 47 :: (b.bytes ++ 47 :: c.bytes)) ++ rest)) 0 0 =
        (rest, a.value, b.value, c.value)) ∧
    (∀ a : IndexText, decimalValue a.digits < 2147483648 →
      a.value = if a.sign = [45] then -(decimalValue a.digits : Int)
        else (decimalValue a.digits : Int)) ∧
    (∀ count : Nat, fixupIndex 0 count = -1) ∧
    (∀ (charSigned : Bool) (m : ObjFile) (lead : List Nat)
      (items : List (FaceToken × List Nat)), lead.all isBlank = true →
      wellFormedBody items = true →
      (objParseLine charSigned m (faceLine lead items)).f =
        m.f ++ (items.map fun p => p.1.raw).flatMap fun t =>
          [fixupIndex t.1 (m.v.length / 3), fixupIndex t.2.1 (m.vt.length / 3),
            fixupIndex t.2.2 (m.vn.length / 3)]) := by
  refine ⟨?_, ?_, ?_, ?_, indexText_value, fun count => rfl, ?_⟩
  · intro lead rest a hl hd hs ha
    exact parseFace_shape (.position a) lead rest hl ha hd hs
  · intro lead rest a b hl hd hs ha hb
    exact parseFace_shape (.texcoord a b) lead rest hl
      (by simp [FaceToken.shaped, ha, hb]) hd hs
  · intro lead rest a c hl hd hs ha hc
    exact parseFace_shape (.normal a c) lead rest hl
      (by simp [FaceToken.shaped, ha, hc]) hd hs
  · intro lead rest a b c hl hd hs ha hb hc
    exact parseFace_shape (.full a b c) lead rest hl
      (by simp [FaceToken.shaped, ha, hb, hc]) hd hs
  · intro cs m lead items hl hb
    exact (objParseLine_faceLine cs m lead items hl hb).1

/-- C18, witness: the token `-2//+3` followed by a space, and the line
`f 1/1/1 -2//+3 3/2` read into the quadrilateral. -/
theorem parseFace_shapes_witness :
    parseFace ([32] ++ ((IndexText.bytes ⟨[45], [50]⟩ ++ 47 :: 47 ::
        IndexText.bytes ⟨[43], [51]⟩) ++ [32, 51])) 0 0 =
      ([32, 51], IndexText.value ⟨[45], [50]⟩, 0, IndexText.value ⟨[43], [51]⟩) ∧
    IndexText.value ⟨[45], [50]⟩ = -2 ∧
    (objParseLine true quadMesh (faceLine [] sampleFaceItems)).f =
      quadMesh.f ++ [0, 0, 0, 2, -1, 2, 2, 1, -1] :=
  ⟨parseFace_shapes.2.2.1 [32] [32, 51] ⟨[45], [50]⟩ ⟨[43], [51]⟩ rfl rfl (by decide) rfl rfl,
    (parseFace_shapes.2.2.2.2.1 ⟨[45], [50]⟩ (by decide)).trans (by decide),
    (parseFace_shapes.2.2.2.2.2.2 true quadMesh [] sampleFaceItems rfl (by decide)).trans
      (by decide)⟩

/-! ## Growable buffers: claim C20 -/

/-- C20, as the claim is worded, fails: from the capacity 9 (the index buffer
of one triangle after `objTriangulate`) `growArray` goes to `9 + 9 / 2 = 13`,
while `max(32, 9 + 9 / 2)` is 32; the face line `f 1` read after the
triangulation makes that call. -/
theorem growArray_counterexample :
    growArray 9 = 13 ∧ max 32 (9 + 9 / 2) = 32 ∧
    ∃ r, objTriangulate (readLines true ObjFile.empty triangleLines) = some r ∧
      r.f_cap = 9 ∧ (objParseLine true r (ascii "f 1")).f_cap = 13 := by
  refine ⟨by decide, by decide, _, rfl, ?_⟩
  decide

/-- C20, amended. `growArray` called with capacity `c` sets the capacity to
32 when `c = 0` and to `c + c / 2` when `c ≥ 2`; this is `max(32, c + c / 2)`
when `c = 0` or `c ≥ 22`.  The new array has that many cells and its first
`c` cells are those of the old array. -/
theorem growArray_rule :
    growArray 0 = 32 ∧
    (∀ c : Nat, 2 ≤ c → growArray c = c + c / 2) ∧
    (∀ c : Nat, c = 0 ∨ 22 ≤ c → growArray c = max 32 (c + c / 2)) ∧
    (∀ (α : Type) (data fresh : List α) (c : Nat), data.length = c →
      fresh.length = growArray c →
      (growArrayCells data c fresh).length = growArray c ∧
      (growArrayCells data c fresh).take c = data) := by
  refine ⟨rfl, fun c hc => ?_, fun c hc => ?_, fun α data fresh c hd hf => ⟨?_, ?_⟩⟩
  · unfold growArray
    rw [if_neg (by omega)]
  · unfold growArray
    rcases hc with rfl | hc
    · rfl
    · rw [if_neg (by omega)]
      omega
  · have hge : c ≤ growArray c := by
      unfold growArray; split <;> omega
    unfold growArrayCells
    rw [List.length_append, List.length_take, List.length_drop, hd, hf]
    omega
  · have e : data.take c = data := List.take_of_length_le (by omega)
    unfold growArrayCells
    rw [e, List.take_left' hd]

/-- C20, witness: growing a full buffer of capacity 48, and copying the two
cells of a buffer of capacity 2. -/
theorem growArray_rule_witness :
    growArray 48 = 48 + 48 / 2 ∧ growArray 48 = max 32 (48 + 48 / 2) ∧
    ((growArrayCells ([7, 8] : List Int) 2 [0, 0, 0]).length = growArray 2 ∧
      (growArrayCells ([7, 8] : List Int) 2 [0, 0, 0]).take 2 = [7, 8]) :=
  ⟨growArray_rule.2.1 48 (by decide), growArray_rule.2.2.1 48 (Or.inr (by decide)),
    growArray_rule.2.2.2 Int [7, 8] [0, 0, 0] 2 rfl rfl⟩

/-! ## Float lexer: the loops -/

theorem floatIntPart_run (ds rest : List Nat) (hrest : isDigit (deref rest) = false) :
    ds.all isDigit = true → ∀ acc, floatIntPart (ds ++ rest) acc =
      (acc ++ ds.map (· - 48), rest) := by
  induction ds with
  | nil =>
    intro _ acc
    cases rest with
    | nil => simp [floatIntPart]
    | cons c tl =>
      have hc : isDigit c = false := hrest
      rw [List.nil_append, floatIntPart, if_neg (by simp [hc])]
      simp
  | cons c ds ih =>
    intro h acc
    simp only [List.all_cons, Bool.and_eq_true] at h
    rw [List.cons_append, floatIntPart, if_pos h.1, ih h.2]
    simp

theorem floatFracPart_run (ds rest : List Nat) (hrest : isDigit (deref rest) = false) :
    ds.all isDigit = true → ∀ (acc : List Nat) (p : Int), p ≤ 2147483647 →
      -2147483648 ≤ p - (ds.length : Int) →
      floatFracPart (ds ++ rest) acc p = (acc ++ ds.map (· - 48), p - (ds.length : Int), rest) := by
  induction ds with
  | nil =>
    intro _ acc p _ _
    cases rest with
    | nil => simp [floatFracPart]
    | cons c tl =>
      have hc : isDigit c = false := hrest
      rw [List.nil_append, floatFracPart, if_neg (by simp [hc])]
      simp
  | cons c ds ih =>
    intro h acc p hp hlo
    simp only [List.all_cons, Bool.and_eq_true] at h
    simp only [List.length_cons, Nat.cast_add, Nat.cast_one] at hlo
    have hw : wrapInt32 (p - 1) = p - 1 := by unfold wrapInt32; omega
    rw [List.cons_append, floatFracPart, if_pos h.1, hw, ih h.2 _ _ (by omega) (by omega)]
    simp only [List.length_cons, Nat.cast_add, Nat.cast_one, List.map_cons, List.append_assoc,
      List.singleton_append]
    congr 2
    omega

theorem decimal_fold_ge (ds : List Nat) :
    ∀ r : Nat, r ≤ ds.foldl (fun r c => r * 10 + (c - 48)) r := by
  induction ds with
  | nil => intro r; exact Nat.le_refl _
  | cons c ds ih =>
    intro r
    simp only [List.foldl_cons]
    have := ih (r * 10 + (c - 48))
    omega

theorem floatExponent_run (ds rest : List Nat) (hrest : isDigit (deref rest) = false) :
    ds.all isDigit = true → ∀ r : Nat,
      ds.foldl (fun r c => r * 10 + (c - 48)) r < 2147483648 →
      floatExponent (ds ++ rest) (r : Int) =
        (((ds.foldl (fun r c => r * 10 + (c - 48)) r : Nat) : Int), rest) := by
  induction ds with
  | nil =>
    intro _ r _
    cases rest with
    | nil => simp [floatExponent]
    | cons c tl =>
      have hc : isDigit c = false := hrest
      rw [List.nil_append, floatExponent, if_neg (by simp [hc])]
      simp
  | cons c ds ih =>
    intro h r hfit
    simp only [List.all_cons, Bool.and_eq_true] at h
    simp only [List.foldl_cons] at hfit ⊢
    have hge := decimal_fold_ge ds (r * 10 + (c - 48))
    have hw : wrapInt32 ((r : Int) * 10 + ((c - 48 : Nat) : Int)) =
        ((r * 10 + (c - 48) : Nat) : Int) := by
      unfold wrapInt32
      push_cast
      omega
    rw [List.cons_append, floatExponent, if_pos h.1, hw, ih h.2 _ hfit]

theorem signText_cases (sign : List Nat) (h : isSignText sign = true) :
    sign = [] ∨ sign = [43] ∨ sign = [45] := by
  simpa [isSignText, or_assoc] using h

/-- The sign stage of the lexers: the test `*s == '-'` and the statement
`s += (*s == '-' || *s == '+')` on a sign followed by `rest`. -/
theorem sign_stage (sign rest : List Nat) (h : isSignText sign = true)
    (hrest : sign = [] → deref rest ≠ 43 ∧ deref rest ≠ 45) :
    decide (deref (sign ++ rest) = 45) = (sign == [45]) ∧ skipSign (sign ++ rest) = rest := by
  rcases signText_cases sign h with rfl | rfl | rfl
  · obtain ⟨h43, h45⟩ := hrest rfl
    refine ⟨by simp [h45], ?_⟩
    unfold skipSign
    rw [List.nil_append, if_neg (by simp [h43, h45])]
  · exact ⟨rfl, rfl⟩
  · exact ⟨rfl, rfl⟩

theorem sign_stage_blank (sign rest : List Nat) (h : isSignText sign = true)
    (hrest : sign = [] → isBlank (deref rest) = false) :
    isBlank (deref (sign ++ rest)) = false := by
  rcases signText_cases sign h with rfl | rfl | rfl
  · exact hrest rfl
  · rfl
  · rfl

/-! ## Float lexer: the fraction and exponent stages -/

theorem fraction_stage (t : FloatText) (rest acc : List Nat)
    (hrest : isDigit (deref rest) = false) (hdot : t.fraction = none → deref rest ≠ 46)
    (hwf : t.fractionDigits.all isDigit = true)
    (hlen : (t.fractionDigits.length : Int) ≤ 2147483648) :
    (if deref (t.fractionBytes ++ rest) = 46 then
        floatFracPart ((t.fractionBytes ++ rest).drop 1) acc 0
      else (acc, 0, t.fractionBytes ++ rest)) =
      (acc ++ t.fractionDigits.map (· - 48), -(t.fractionDigits.length : Int), rest) := by
  unfold FloatText.fractionBytes FloatText.fractionDigits at *
  cases hf : t.fraction with
  | none =>
    rw [hf] at hwf hlen
    simp only [List.nil_append]
    rw [if_neg (hdot hf)]
    simp
  | some ds =>
    rw [hf] at hwf hlen
    dsimp only at hwf hlen
    simp only [List.cons_append]
    rw [if_pos (show deref (46 :: (ds ++ rest)) = 46 from rfl)]
    simp only [List.drop_succ_cons, List.drop_zero]
    rw [floatFracPart_run ds rest hrest hwf acc 0 (by decide) (by omega)]
    simp

theorem exponent_stage (t : FloatText) (rest : List Nat) (p : Int)
    (hwf : t.wellFormed = true) (hstop : floatStop rest = true)
    (hexp : (Int.natAbs t.exponentValue : Int) < 2147483648)
    (hsum : -2147483648 ≤ p + t.exponentValue ∧ p + t.exponentValue ≤ 2147483647) :
    (if deref (t.exponentBytes ++ rest) ||| 32 = 101 then
        (wrapInt32 (p + wrapInt32 ((if deref ((t.exponentBytes ++ rest).drop 1) = 45 then -1
            else 1) * (floatExponent (skipSign ((t.exponentBytes ++ rest).drop 1)) 0).1)),
          (floatExponent (skipSign ((t.exponentBytes ++ rest).drop 1)) 0).2)
      else (p, t.exponentBytes ++ rest)) = (p + t.exponentValue, rest) := by
  simp only [floatStop, Bool.and_eq_true, Bool.not_eq_true', bne_iff_ne, ne_eq] at hstop
  obtain ⟨⟨⟨⟨hdig, h46⟩, he⟩, h43⟩, h45⟩ := hstop
  unfold FloatText.exponentBytes FloatText.exponentValue at *
  simp only [FloatText.wellFormed, Bool.and_eq_true] at hwf
  cases hx : t.exponent with
  | none =>
    simp only [List.nil_append]
    rw [if_neg he]
    simp
  | some e =>
    obtain ⟨c, es, ds⟩ := e
    rw [hx] at hexp hsum
    have hw := hwf.2
    rw [hx] at hw
    simp only [Bool.and_eq_true, Bool.or_eq_true, beq_iff_eq] at hw
    obtain ⟨⟨hc, hes⟩, hds⟩ := hw
    have hce : c ||| 32 = 101 := by rcases hc with rfl | rfl <;> decide
    have hz : es = [] → deref (ds ++ rest) ≠ 43 ∧ deref (ds ++ rest) ≠ 45 := by
      intro _
      cases ds with
      | nil => exact ⟨h43, h45⟩
      | cons d tl =>
        simp only [List.all_cons, Bool.and_eq_true] at hds
        obtain ⟨hd1, hd2⟩ := isDigit_bounds d hds.1
        have hdr : deref (d :: tl ++ rest) = d := rfl
        rw [hdr]; omega
    obtain ⟨hs1, hs2⟩ := sign_stage es (ds ++ rest) hes hz
    have hval : decimalValue ds < 2147483648 := by
      simp only [] at hexp
      split at hexp <;> omega
    have hrun := floatExponent_run ds rest hdig hds 0 hval
    simp only [List.cons_append, List.drop_succ_cons, List.drop_zero, List.append_assoc]
    have hdr : deref (c :: (es ++ (ds ++ rest))) = c := rfl
    rw [hdr, if_pos hce, hs2]
    have h0 : ((0 : Nat) : Int) = 0 := rfl
    rw [h0] at hrun
    rw [hrun]
    have hsign : (deref (es ++ (ds ++ rest)) = 45) ↔ es = [45] := by
      by_cases h : es = [45]
      · exact ⟨fun _ => h, fun _ => by rw [h]; rfl⟩
      · have hb : (es == [45]) = false := by simpa using h
        rw [hb] at hs1
        have hn : ¬ deref (es ++ (ds ++ rest)) = 45 := by simpa using hs1
        exact ⟨fun hh => absurd hh hn, fun hh => absurd hh h⟩
    simp only [decimalValue] at hsum hval ⊢
    by_cases h : es = [45]
    · rw [if_pos (hsign.mpr h)]
      simp only [h, if_true] at hsum ⊢
      unfold wrapInt32
      congr 1
      omega
    · rw [if_neg (fun hh => h (hsign.mp hh))]
      simp only [h, if_false] at hsum ⊢
      unfold wrapInt32
      congr 1
      omega

/-! ## Float lexer: the result on a well-formed number -/

theorem exponent_head (t : FloatText) (rest : List Nat) (hwf : t.wellFormed = true)
    (hstop : floatStop rest = true) :
    isDigit (deref (t.exponentBytes ++ rest)) = false ∧
      deref (t.exponentBytes ++ rest) ≠ 46 ∧
      (t.exponent = none ∨ (isBlank (deref (t.exponentBytes ++ rest)) = false ∧
        deref (t.exponentBytes ++ rest) ≠ 43 ∧ deref (t.exponentBytes ++ rest) ≠ 45)) := by
  simp only [floatStop, Bool.and_eq_true, Bool.not_eq_true', bne_iff_ne, ne_eq] at hstop
  obtain ⟨⟨⟨⟨hdig, h46⟩, _⟩, _⟩, _⟩ := hstop
  simp only [FloatText.wellFormed, Bool.and_eq_true] at hwf
  unfold FloatText.exponentBytes
  cases hx : t.exponent with
  | none => exact ⟨hdig, h46, Or.inl rfl⟩
  | some e =>
    have hw := hwf.2
    rw [hx] at hw
    simp only [Bool.and_eq_true, Bool.or_eq_true, beq_iff_eq] at hw
    have hdr : deref (e.1 :: (e.2.1 ++ e.2.2) ++ rest) = e.1 := rfl
    dsimp only
    rw [hdr]
    rcases hw.1.1 with h | h <;> rw [h] <;>
      exact ⟨rfl, by decide, Or.inr ⟨rfl, by decide, by decide⟩⟩

/-- Result of `parseFloat` on a well-formed number whose exponent and
fraction length fit an `int`. -/
theorem parseFloat_text (t : FloatText) (ws rest : List Nat)
    (hws : ws.all isBlank = true) (hwf : t.wellFormed = true)
    (hstop : floatStop rest = true) (hblank : t.bytes = [] → isBlank (deref rest) = false)
    (hfit : t.powerFits = true) :
    parseFloat (ws ++ (t.bytes ++ rest)) = (t.result, rest) := by
  have hstop' := hstop
  simp only [floatStop, Bool.and_eq_true, Bool.not_eq_true', bne_iff_ne, ne_eq] at hstop'
  obtain ⟨⟨⟨⟨hdig, h46⟩, he⟩, h43⟩, h45⟩ := hstop'
  have hwf' := hwf
  simp only [FloatText.wellFormed, Bool.and_eq_true] at hwf'
  obtain ⟨⟨⟨hsign, hwhole⟩, hfrac⟩, _⟩ := hwf'
  have hfd : t.fractionDigits.all isDigit = true := by
    unfold FloatText.fractionDigits
    cases hf : t.fraction with
    | none => rfl
    | some ds => rw [hf] at hfrac; exact hfrac
  have hfit' : (t.fractionDigits.length : Int) + Int.natAbs t.exponentValue < 2147483648 := by
    simpa [FloatText.powerFits] using hfit
  obtain ⟨hY2dig, hY2dot, hY2head⟩ := exponent_head t rest hwf hstop
  -- the text after the integer part
  have hY1dig : isDigit (deref (t.fractionBytes ++ (t.exponentBytes ++ rest))) = false := by
    unfold FloatText.fractionBytes
    cases t.fraction with
    | none => exact hY2dig
    | some ds => rfl
  -- the text after the sign
  have hT1 : t.sign = [] →
      isBlank (deref (t.whole ++ (t.fractionBytes ++ (t.exponentBytes ++ rest)))) = false ∧
      deref (t.whole ++ (t.fractionBytes ++ (t.exponentBytes ++ rest))) ≠ 43 ∧
      deref (t.whole ++ (t.fractionBytes ++ (t.exponentBytes ++ rest))) ≠ 45 := by
    intro hs
    cases hw : t.whole with
    | cons d tl =>
      rw [hw] at hwhole
      simp only [List.all_cons, Bool.and_eq_true] at hwhole
      obtain ⟨hd1, hd2⟩ := isDigit_bounds d hwhole.1
      have hdr : deref (d :: tl ++ (t.fractionBytes ++ (t.exponentBytes ++ rest))) = d := rfl
      rw [hdr]
      refine ⟨?_, by omega, by omega⟩
      simp [isBlank]; omega
    | nil =>
      rw [List.nil_append]
      cases hf : t.fraction with
      | some ds =>
        simp only [FloatText.fractionBytes, hf]
        have hdr : deref (46 :: ds ++ (t.exponentBytes ++ rest)) = 46 := rfl
        rw [hdr]
        exact ⟨rfl, by decide, by decide⟩
      | none =>
        simp only [FloatText.fractionBytes, hf, List.nil_append]
        rcases hY2head with hx | hx
        · have hb : t.bytes = [] := by
            simp [FloatText.bytes, FloatText.fractionBytes, FloatText.exponentBytes, hs, hw,
              hf, hx]
          simp only [FloatText.exponentBytes, hx, List.nil_append]
          exact ⟨hblank hb, h43, h45⟩
        · exact hx
  have hbytes : t.bytes ++ rest =
      t.sign ++ (t.whole ++ (t.fractionBytes ++ (t.exponentBytes ++ rest))) := by
    simp [FloatText.bytes]
  have h1 : skipBlanks (ws ++ (t.bytes ++ rest)) =
      t.sign ++ (t.whole ++ (t.fractionBytes ++ (t.exponentBytes ++ rest))) := by
    rw [hbytes, skipBlanks_lead _ _ hws,
      skipBlanks_stop _ (sign_stage_blank _ _ hsign (fun h => (hT1 h).1))]
  obtain ⟨h2, h3⟩ := sign_stage t.sign _ hsign (fun h => (hT1 h).2)
  have h4 := floatIntPart_run t.whole _ hY1dig hwhole []
  have h5 := fraction_stage t (t.exponentBytes ++ rest) ([] ++ t.whole.map (· - 48)) hY2dig
    (fun _ => hY2dot) hfd (by omega)
  have h6 := exponent_stage t rest (-(t.fractionDigits.length : Int)) hwf hstop (by omega)
    (by omega)
  have hpow : -(t.fractionDigits.length : Int) + t.exponentValue = t.power := by
    unfold FloatText.power; ring
  have hman : [] ++ t.whole.map (· - 48) ++ t.fractionDigits.map (· - 48) = t.mantissa := by
    simp [FloatText.mantissa]
  rw [hpow] at h6
  rw [hman] at h5
  have hrange : -2147483648 < t.power ∧ t.power < 2147483648 := by
    unfold FloatText.power; omega
  have hneg : wrapInt32 (-t.power) = -t.power := by
    unfold wrapInt32; omega
  unfold parseFloat
  simp only [h1, h2, h3, h4, h5, h6, hneg, powersCount]
  unfold FloatText.result
  by_cases c1 : -22 ≤ t.power ∧ t.power ≤ 0
  · rw [if_pos c1, if_pos (by omega)]
  · rw [if_neg c1, if_neg (by omega)]
    by_cases c2 : 0 < t.power ∧ t.power ≤ 22
    · rw [if_pos c2, if_pos (by omega)]
    · rw [if_neg c2, if_neg (by omega)]

/-! ## Float lexer: claim C19 -/

/-- C19, as the claim is worded, fails: `1e4294967296` has the announced
form, with mantissa digits `1` and exponent `2^32`, so that the claim takes
the value from the general power function with `P = 2^32`; the `int`
exponent of `parseFloat` wraps to 0 and the value returned is the mantissa
divided by `powers[0]`. -/
theorem parseFloat_counterexample :
    hugeExponentText.wellFormed = true ∧ hugeExponentText.bytes = ascii "1e4294967296" ∧
    hugeExponentText.power = 4294967296 ∧
    hugeExponentText.result = FloatVal.mulPow false [1] 4294967296 ∧
    parseFloat (ascii "1e4294967296") = (FloatVal.divTable false [1] 0, []) := by
  decide

/-- C19, amended. On blanks followed by a number of the form
`[+|-] I [. F] [(e|E) [+|-] X]` (`I`, `F`, `X` runs of digits, possibly
empty) whose exponent and number of fraction digits fit an `int`, followed by
a rest that does not continue the number, `parseFloat` leaves the cursor on
the rest and returns the value built from the sign, the mantissa digits (those
of `I` followed by those of `F`) and the power `P = X - |F|`: the mantissa
divided by `powers[-P]` when `-22 ≤ P ≤ 0`, multiplied by `powers[P]` when
`0 < P ≤ 22`, multiplied by `pow(10.0, P)` otherwise.  A number without
digits has an empty mantissa. -/
theorem parseFloat_reads (t : FloatText) (ws rest : List Nat)
    (hws : ws.all isBlank = true) (hwf : t.wellFormed = true)
    (hstop : floatStop rest = true) (hblank : t.bytes = [] → isBlank (deref rest) = false)
    (hfit : t.powerFits = true) :
    (parseFloat (ws ++ (t.bytes ++ rest))).2 = rest ∧
    (-22 ≤ t.power ∧ t.power ≤ 0 →
      (parseFloat (ws ++ (t.bytes ++ rest))).1 =
        FloatVal.divTable (t.sign == [45]) t.mantissa (-t.power).toNat) ∧
    (0 < t.power ∧ t.power ≤ 22 →
      (parseFloat (ws ++ (t.bytes ++ rest))).1 =
        FloatVal.mulTable (t.sign == [45]) t.mantissa t.power.toNat) ∧
    (t.power < -22 ∨ 22 < t.power →
      (parseFloat (ws ++ (t.bytes ++ rest))).1 =
        FloatVal.mulPow (t.sign == [45]) t.mantissa t.power) ∧
    (t.whole = [] → t.fractionDigits = [] → t.mantissa = []) := by
  rw [parseFloat_text t ws rest hws hwf hstop hblank hfit]
  unfold FloatText.result
  refine ⟨rfl, fun h => ?_, fun h => ?_, fun h => ?_, fun h1 h2 => ?_⟩
  · rw [if_pos h]
  · rw [if_neg (by omega), if_pos h]
  · rw [if_neg (by omega), if_neg (by omega)]
  · simp [FloatText.mantissa, h1, h2]

/-- C19, witness: two spaces, `-12.50e-3`, and a rest ` x`. -/
theorem parseFloat_reads_witness :
    sampleFloatText.bytes = ascii "-12.50e-3" ∧ sampleFloatText.power = -5 ∧
    (parseFloat ([32, 32] ++ (sampleFloatText.bytes ++ [32, 120]))).2 = [32, 120] ∧
    (parseFloat ([32, 32] ++ (sampleFloatText.bytes ++ [32, 120]))).1 =
      FloatVal.divTable true [1, 2, 5, 0] 5 :=
  ⟨by decide, by decide,
    (parseFloat_reads sampleFloatText [32, 32] [32, 120] rfl (by decide) (by decide)
      (by decide) (by decide)).1,
    ((parseFloat_reads sampleFloatText [32, 32] [32, 120] rfl (by decide) (by decide)
      (by decide) (by decide)).2.1 (by decide)).trans (by decide)⟩

end ObjParser

